import Mathlib

/-!
matchain: the ledger core of `blockchain_core.cpp`.

A shallow embedding of the consensus core (hashing, Merkle root, transactions,
blocks, the UTXO map and the `Blockchain` class) followed by theorems about it.

Conventions of the embedding:

* `std::string` is `String`; `std::vector<T>` is `List T`.
* `uint32_t` / `uint64_t` values are natural numbers; every arithmetic step of
  the source that can wrap is written with an explicit `% 2 ^ 64`.
* `std::map<std::string, UTXO>` is the finite map read through its lookup,
  `String → Option UTXO`; `find`, `erase` and `operator[]=` are the three
  operations the source uses.
* The globals `g_utxoSet` and `g_totalBlocks` are fields of the ledger state.
* `std::time(nullptr)` is an explicit argument `now`.
* Reading `chain.back()` of an empty vector and dividing by a zero halving
  interval have no defined result in the source; the embedding returns `none`.
* Calls are taken one at a time; `g_blockchainMutex` is not part of the state.
-/

namespace Matchain

/-! ## SHA-256

`sha256` of the source formats the 32 bytes written by the library routine
`SHA256` as 64 lowercase hex characters. The routine is the FIPS 180-4 hash,
written out here so that block ids can be evaluated. -/

/-- Rotate a 32-bit word right by `n` bits. -/
def rotr (x n : Nat) : Nat := ((x >>> n) ||| (x <<< (32 - n))) % 4294967296

/-- The 64 round constants of SHA-256. -/
def sha256K : List Nat :=
  [1116352408, 1899447441, 3049323471, 3921009573, 961987163, 1508970993,
   2453635748, 2870763221, 3624381080, 310598401, 607225278, 1426881987,
   1925078388, 2162078206, 2614888103, 3248222580, 3835390401, 4022224774,
   264347078, 604807628, 770255983, 1249150122, 1555081692, 1996064986,
   2554220882, 2821834349, 2952996808, 3210313671, 3336571891, 3584528711,
   113926993, 338241895, 666307205, 773529912, 1294757372, 1396182291,
   1695183700, 1986661051, 2177026350, 2456956037, 2730485921, 2820302411,
   3259730800, 3345764771, 3516065817, 3600352804, 4094571909, 275423344,
   430227734, 506948616, 659060556, 883997877, 958139571, 1322822218,
   1537002063, 1747873779, 1955562222, 2024104815, 2227730452, 2361852424,
   2428436474, 2756734187, 3204031479, 3329325298]

/-- The `n` low bytes of `x`, most significant first. -/
def bigEndian (n : Nat) (x : Nat) : List Nat :=
  (List.range n).reverse.map (fun i => (x >>> (8 * i)) % 256)

/-- Message padding: a `0x80` byte, zeros up to 56 mod 64, then the bit length. -/
def padMessage (bs : List Nat) : List Nat :=
  bs ++ [128] ++ List.replicate ((119 - bs.length % 64) % 64) 0 ++ bigEndian 8 (8 * bs.length)

/-- Big-endian 32-bit words of a byte list. -/
def wordsOf : List Nat → List Nat
  | a :: b :: c :: d :: rest => (a * 16777216 + b * 65536 + c * 256 + d) :: wordsOf rest
  | _ => []

/-- Message schedule, kept newest word first; `n` more words are appended. -/
def extendSchedule : Nat → List Nat → List Nat
  | 0, w => w
  | n + 1, w =>
    let w2 := w.getD 1 0
    let w7 := w.getD 6 0
    let w15 := w.getD 14 0
    let w16 := w.getD 15 0
    let s0 := rotr w15 7 ^^^ rotr w15 18 ^^^ (w15 >>> 3)
    let s1 := rotr w2 17 ^^^ rotr w2 19 ^^^ (w2 >>> 10)
    extendSchedule n (((w16 + s0 + w7 + s1) % 4294967296) :: w)

/-- The eight working variables of the compression function. -/
structure ShaState where
  a : Nat
  b : Nat
  c : Nat
  d : Nat
  e : Nat
  f : Nat
  g : Nat
  h : Nat

/-- One round of the compression function on (round constant, schedule word). -/
def shaRound (s : ShaState) (kw : Nat × Nat) : ShaState :=
  let s1 := rotr s.e 6 ^^^ rotr s.e 11 ^^^ rotr s.e 25
  let ch := (s.e &&& s.f) ^^^ ((4294967295 - s.e) &&& s.g)
  let t1 := (s.h + s1 + ch + kw.1 + kw.2) % 4294967296
  let s0 := rotr s.a 2 ^^^ rotr s.a 13 ^^^ rotr s.a 22
  let maj := (s.a &&& s.b) ^^^ (s.a &&& s.c) ^^^ (s.b &&& s.c)
  let t2 := (s0 + maj) % 4294967296
  ⟨(t1 + t2) % 4294967296, s.a, s.b, s.c, (s.d + t1) % 4294967296, s.e, s.f, s.g⟩

/-- Compression of one 64-byte block into the running state. -/
def compress (s : ShaState) (block : List Nat) : ShaState :=
  let w := (extendSchedule 48 (wordsOf block).reverse).reverse
  let r := (sha256K.zip w).foldl shaRound s
  ⟨(s.a + r.a) % 4294967296, (s.b + r.b) % 4294967296, (s.c + r.c) % 4294967296,
   (s.d + r.d) % 4294967296, (s.e + r.e) % 4294967296, (s.f + r.f) % 4294967296,
   (s.g + r.g) % 4294967296, (s.h + r.h) % 4294967296⟩

/-- Fold `compress` over `n` consecutive 64-byte blocks. -/
def processBlocks : Nat → ShaState → List Nat → ShaState
  | 0, s, _ => s
  | n + 1, s, bs => processBlocks n (compress s (bs.take 64)) (bs.drop 64)

/-- The eight 32-bit words of the SHA-256 digest of a byte list. -/
def sha256Words (bs : List Nat) : List Nat :=
  let p := padMessage bs
  let s := processBlocks (p.length / 64)
    ⟨1779033703, 3144134277, 1013904242, 2773480762, 1359893119, 2600822924, 528734635,
     1541459225⟩ p
  [s.a, s.b, s.c, s.d, s.e, s.f, s.g, s.h]

/-- The library routine `SHA256`: the 32 digest bytes of the input's bytes. -/
def SHA256 (input : String) : List Nat :=
  (sha256Words ((input.data.flatMap String.utf8EncodeChar).map UInt8.toNat)).flatMap (bigEndian 4)

/-- Two lowercase hex digits: `std::hex << std::setw(2) << std::setfill('0')`. -/
def hexByte (b : Nat) : List Char := [Nat.digitChar (b / 16 % 16), Nat.digitChar (b % 16)]

/-- Source `sha256`: the digest as a hex string. -/
def sha256 (input : String) : String :=
  String.mk ((SHA256 input).flatMap hexByte)

/-! ## Merkle root -/

/-- The constant `std::string(SHA256_DIGEST_LENGTH * 2, '0')`. -/
def zeroDigest : String := String.mk (List.replicate (32 * 2) '0')

/-- The inner `for` loop of `calculateMerkleRoot`: `i` steps by two and pushes
`sha256(currentLevel[i] + currentLevel[i + 1])`. The level it runs on has even
length (it was padded just before), so the one-element tail is never met. -/
def hashPairs : List String → List String
  | left :: right :: rest => sha256 (left ++ right) :: hashPairs rest
  | _ => []

/-- The `while (currentLevel.size() > 1)` loop, with an explicit iteration bound. -/
def merkleLoop : Nat → List String → List String
  | 0, currentLevel => currentLevel
  | fuel + 1, currentLevel =>
    if currentLevel.length > 1 then
      let padded :=
        if currentLevel.length % 2 ≠ 0 then currentLevel ++ [currentLevel.getLastD ""]
        else currentLevel
      merkleLoop fuel (hashPairs padded)
    else currentLevel

/-- Source `calculateMerkleRoot`. A level of `n > 1` entries shrinks to
`(n + 1) / 2 < n`, so `txHashes.length` iterations are enough. -/
def calculateMerkleRoot (txHashes : List String) : String :=
  if txHashes.isEmpty then zeroDigest
  else (merkleLoop txHashes.length txHashes).headD ""

/-! ## Transactions and blocks -/

/-- Source `struct TxInput`. -/
structure TxInput where
  txid : String
  index : Nat
  signature : String
  deriving DecidableEq, Repr

/-- Source `TxInput::toString`: `ss << txid << index << signature`. -/
def TxInput.toString (i : TxInput) : String :=
  i.txid ++ Nat.repr i.index ++ i.signature

/-- Source `struct TxOutput`. -/
structure TxOutput where
  amount : Nat
  pubKeyHash : String
  deriving DecidableEq, Repr

/-- Source `TxOutput::toString`: `ss << amount << pubKeyHash`. -/
def TxOutput.toString (o : TxOutput) : String :=
  Nat.repr o.amount ++ o.pubKeyHash

/-- Source `class Transaction`. -/
structure Transaction where
  inputs : List TxInput
  outputs : List TxOutput
  version : Nat
  lockTime : Nat
  deriving DecidableEq, Repr

/-- The string `getTxId` feeds to `sha256`. -/
def Transaction.serialize (tx : Transaction) : String :=
  Nat.repr tx.version ++ Nat.repr tx.lockTime
    ++ String.join (tx.inputs.map TxInput.toString)
    ++ String.join (tx.outputs.map TxOutput.toString)

/-- Source `Transaction::getTxId`. -/
def Transaction.getTxId (tx : Transaction) : String :=
  sha256 tx.serialize

/-- Source `struct BlockHeader`. -/
structure BlockHeader where
  version : Nat
  prevBlockHash : String
  merkleRoot : String
  timestamp : Nat
  difficultyTarget : Nat
  nonce : Nat
  deriving DecidableEq, Repr

/-- Source `class Block`. -/
structure Block where
  header : BlockHeader
  transactions : List Transaction
  deriving DecidableEq, Repr

/-- Source `Block::getBlockHash`. -/
def Block.getBlockHash (b : Block) : String :=
  sha256 (Nat.repr b.header.version ++ b.header.prevBlockHash ++ b.header.merkleRoot
    ++ Nat.repr b.header.timestamp ++ Nat.repr b.header.difficultyTarget
    ++ Nat.repr b.header.nonce)

/-- Source `Block::buildMerkleRoot`. -/
def Block.buildMerkleRoot (b : Block) : Block :=
  { b with header :=
      { b.header with merkleRoot := calculateMerkleRoot (b.transactions.map Transaction.getTxId) } }

/-! ## The UTXO map -/

/-- Source `struct UTXO`. -/
structure UTXO where
  amount : Nat
  pubKeyHash : String
  deriving DecidableEq, Repr

/-- The map `std::map<std::string, UTXO>`, read through its lookup. -/
abbrev UTXOSet := String → Option UTXO

/-- The map with no entry: the state of `g_utxoSet` at program start. -/
def UTXOSet.empty : UTXOSet := fun _ => none

/-- Map `erase(key)`. -/
def UTXOSet.erase (u : UTXOSet) (key : String) : UTXOSet :=
  fun k => if k = key then none else u k

/-- Map `operator[](key) = v`. -/
def UTXOSet.assign (u : UTXOSet) (key : String) (v : UTXO) : UTXOSet :=
  fun k => if k = key then some v else u k

/-- The key `in.txid + ":" + std::to_string(in.index)`. -/
def utxoKey (txid : String) (index : Nat) : String :=
  txid ++ ":" ++ Nat.repr index

/-! ## The ledger -/

/-- Source `class Blockchain`, together with the two globals it reads and writes. -/
structure Blockchain where
  chain : List Block
  blockReward : Nat
  blockHalvingInterval : Nat
  targetSpacing : Nat
  difficultyTarget : Nat
  g_utxoSet : UTXOSet
  g_totalBlocks : Nat

/-- The configuration keys the constructor reads, with the defaults it passes to `cfg.get`. -/
structure Config where
  blockReward : Nat := 50
  blockHalvingInterval : Nat := 210000
  targetSpacing : Nat := 600
  genesisMessage : String := "Hello from Genesis!"

/-- The loop `for (i = 0; i < outputs.size(); i++) g_utxoSet[txid + ":" + i] = ...`,
entered at index `i` with the outputs from `i` on. -/
def insertOutputs (txid : String) : Nat → List TxOutput → UTXOSet → UTXOSet
  | _, [], u => u
  | i, out :: rest, u =>
    insertOutputs txid (i + 1) rest (u.assign (utxoKey txid i) ⟨out.amount, out.pubKeyHash⟩)

/-- Source `Blockchain::createGenesisBlock`, reading `blockReward` and `difficultyTarget`. -/
def createGenesisBlock (blockReward difficultyTarget now : Nat) (msg : String) : Block :=
  let coinbaseTx : Transaction :=
    { version := 1, lockTime := 0,
      inputs := [{ txid := "0", index := 0, signature := msg }],
      outputs := [{ amount := (blockReward * 100000000) % 2 ^ 64,
                    pubKeyHash := sha256 "genesis-pubkey" }] }
  Block.buildMerkleRoot
    { header := { version := 1, prevBlockHash := String.mk (List.replicate 64 '0'),
                  merkleRoot := "", timestamp := now, difficultyTarget := difficultyTarget,
                  nonce := 0 },
      transactions := [coinbaseTx] }

/-- Source constructor `Blockchain::Blockchain`, run on the global map `utxo0`. -/
def Blockchain.new (cfg : Config) (now : Nat) (utxo0 : UTXOSet) : Blockchain :=
  let difficultyTarget := 0x1f00ffff
  let genesis := createGenesisBlock cfg.blockReward difficultyTarget now cfg.genesisMessage
  let coinbaseTx := genesis.transactions.headD ⟨[], [], 0, 0⟩
  { chain := [genesis],
    blockReward := cfg.blockReward,
    blockHalvingInterval := cfg.blockHalvingInterval,
    targetSpacing := cfg.targetSpacing,
    difficultyTarget := difficultyTarget,
    g_utxoSet := insertOutputs coinbaseTx.getTxId 0 coinbaseTx.outputs utxo0,
    g_totalBlocks := 1 }

/-- Source `Blockchain::getLatestBlock`: `chain.back()`, undefined on an empty chain. -/
def Blockchain.getLatestBlock (L : Blockchain) : Option Block :=
  L.chain.getLast?

/-- Source `Blockchain::isValidProofOfWork`: the first four characters of the
block hash are `'0'`. -/
def isValidProofOfWork (block : Block) : Bool :=
  let hash := block.getBlockHash
  (List.range 4).all (fun i => hash.data.getD i (Char.ofNat 0) == '0')

/-- The first loop of `validateTransaction`: `none` when an input key is not in
the map (the source returns false there), else the wrapped running `inputSum`. -/
def sumInputs (u : UTXOSet) : List TxInput → Nat → Option Nat
  | [], inputSum => some inputSum
  | i :: rest, inputSum =>
    match u (utxoKey i.txid i.index) with
    | none => none
    | some entry => sumInputs u rest ((inputSum + entry.amount) % 2 ^ 64)

/-- The second loop of `validateTransaction`: the wrapped running `outputSum`. -/
def sumOutputs : List TxOutput → Nat → Nat
  | [], outputSum => outputSum
  | out :: rest, outputSum => sumOutputs rest ((outputSum + out.amount) % 2 ^ 64)

/-- Source `Blockchain::validateTransaction`. -/
def validateTransaction (u : UTXOSet) (tx : Transaction) : Bool :=
  match sumInputs u tx.inputs 0 with
  | none => false
  | some inputSum =>
    let outputSum := sumOutputs tx.outputs 0
    if outputSum > inputSum then false else true

/-- The first loop of `applyTransaction`: erase every input key. -/
def eraseInputs : List TxInput → UTXOSet → UTXOSet
  | [], u => u
  | i :: rest, u => eraseInputs rest (u.erase (utxoKey i.txid i.index))

/-- Source `Blockchain::applyTransaction`. -/
def applyTransaction (u : UTXOSet) (tx : Transaction) : UTXOSet :=
  insertOutputs tx.getTxId 0 tx.outputs (eraseInputs tx.inputs u)

/-- Source `Blockchain::validateAndApplyTransactions`: the verdict and the map
as the call leaves it. -/
def validateAndApplyTransactions : UTXOSet → List Transaction → Bool × UTXOSet
  | u, [] => (true, u)
  | u, tx :: rest =>
    if !validateTransaction u tx then (false, u)
    else validateAndApplyTransactions (applyTransaction u tx) rest

/-- Source `Blockchain::addBlock`: the returned flag and the ledger afterwards;
`none` when `chain.back()` would be read on an empty chain. -/
def Blockchain.addBlock (L : Blockchain) (newBlock : Block) : Option (Bool × Blockchain) :=
  match L.getLatestBlock with
  | none => none
  | some latest =>
    let prevHash := newBlock.header.prevBlockHash
    let latestHash := latest.getBlockHash
    if prevHash ≠ latestHash then some (false, L)
    else if !isValidProofOfWork newBlock then some (false, L)
    else
      let r := validateAndApplyTransactions L.g_utxoSet newBlock.transactions
      if !r.1 then some (false, { L with g_utxoSet := r.2 })
      else some (true, { L with g_utxoSet := r.2,
                                chain := L.chain ++ [newBlock],
                                g_totalBlocks := (L.g_totalBlocks + 1) % 2 ^ 64 })

/-- Source `Blockchain::getBlockReward`; `none` for the division by a zero interval. -/
def Blockchain.getBlockReward (L : Blockchain) : Option Nat :=
  if L.blockHalvingInterval = 0 then none
  else
    let halvings := L.g_totalBlocks / L.blockHalvingInterval
    if halvings ≥ 64 then some 0
    else some (L.blockReward >>> halvings)

/-- Source `Blockchain::getDifficultyTarget`. -/
def Blockchain.getDifficultyTarget (L : Blockchain) : Nat :=
  L.difficultyTarget

/-- Source `Blockchain::createNewBlock`. -/
def Blockchain.createNewBlock (L : Blockchain) (now : Nat) (minerPubKeyHash : String) :
    Option Block :=
  match L.getLatestBlock, L.getBlockReward with
  | some latest, some reward =>
    let coinbaseTx : Transaction :=
      { version := 1, lockTime := 0,
        inputs := [{ txid := "0", index := 0, signature := "coinbase" }],
        outputs := [{ amount := (reward * 100000000) % 2 ^ 64,
                      pubKeyHash := minerPubKeyHash }] }
    some { header := { version := 1, prevBlockHash := latest.getBlockHash, merkleRoot := "",
                       timestamp := now, difficultyTarget := L.getDifficultyTarget, nonce := 0 },
           transactions := [coinbaseTx] }
  | _, _ => none

/-- Ledger states the program can be in: the constructor run at program start
(empty global map), followed by any number of `addBlock` calls. -/
inductive Reachable (cfg : Config) : Blockchain → Prop
  | init (now : Nat) : Reachable cfg (Blockchain.new cfg now UTXOSet.empty)
  | step {L : Blockchain} (b : Block) (r : Bool) (L2 : Blockchain) :
      Reachable cfg L → L.addBlock b = some (r, L2) → Reachable cfg L2

/-- The ledger after the call `addBlock(b)`, whatever the call returned. -/
def Blockchain.afterAddBlock (L : Blockchain) (b : Block) : Blockchain :=
  match L.addBlock b with
  | some (_, L2) => L2
  | none => L

/-- The flag returned by the call `addBlock(b)`. -/
def Blockchain.addBlockResult (L : Blockchain) (b : Block) : Option Bool :=
  (L.addBlock b).map Prod.fst

/-! ## The Merkle reduction as the specification words it -/

/-- Specification: "the level is padded with a copy of its last element when
its length is odd". -/
def specPad (level : List String) : List String :=
  if level.length % 2 = 1 then level ++ [level.getLastD ""] else level

/-- Specification: "each adjacent pair (left, right) is replaced in order by
`sha256(left ++ right)`": entry `i` of the new level is built from entries
`2 i` and `2 i + 1` of the old one. -/
def specPairs (level : List String) : List String :=
  (List.range (level.length / 2)).map
    (fun i => sha256 (level.getD (2 * i) "" ++ level.getD (2 * i + 1) ""))

/-- Specification of the Merkle root of a non-empty level: a single element is
the root; otherwise pad, pair and repeat. (The empty level is the separate
clause of the specification and is given the all-zero digest.) -/
def merkleSpec (level : List String) : String :=
  match level with
  | [] => zeroDigest
  | [root] => root
  | a :: b :: rest => merkleSpec (specPairs (specPad (a :: b :: rest)))
termination_by level.length
decreasing_by
  simp only [specPairs, specPad, List.length_map, List.length_range, List.length_cons]
  split <;> simp <;> omega

/-! ## Concrete ledgers and blocks used to evaluate the code -/

/-- The ledger right after construction with the default configuration at
clock value 1700000000. -/
def genesisLedger : Blockchain := Blockchain.new {} 1700000000 UTXOSet.empty

/-- Transaction id of the genesis coinbase of `genesisLedger`. -/
def genesisTxId : String := "3fc2e7962ae4e13f44337e31bd1a08d54ae4ca9aab04c77a1803d2a07d6015f5"

/-- Block id of the genesis block of `genesisLedger`. -/
def genesisHash : String := "2c7af8aea0ea8b46da7ee0750419a1aca3546e68c6a0c6412d34bf66c5c5cc0f"

/-- An ordinary transaction: spends the genesis output, pays it all to `alice`. -/
def spendTx : Transaction :=
  { version := 1, lockTime := 0,
    inputs := [{ txid := genesisTxId, index := 0, signature := "sig" }],
    outputs := [{ amount := 5000000000, pubKeyHash := "alice" }] }

/-- A transaction whose only input names an output that was never created. -/
def orphanTx : Transaction :=
  { version := 1, lockTime := 0,
    inputs := [{ txid := "ffffffffffffffffffffffffffffffffffffffffffffffffffffffffffffffff",
                 index := 0, signature := "sig" }],
    outputs := [{ amount := 1, pubKeyHash := "bob" }] }

/-- A transaction that lists the genesis output twice and pays out twice its amount. -/
def doubleTx : Transaction :=
  { version := 1, lockTime := 0,
    inputs := [{ txid := genesisTxId, index := 0, signature := "sig" },
               { txid := genesisTxId, index := 0, signature := "sig" }],
    outputs := [{ amount := 10000000000, pubKeyHash := "mallory" }] }

/-- A transaction that spends the genesis output (5000000000) and whose two
64-bit output amounts add up to 2^64 + 1. -/
def wrapTx : Transaction :=
  { version := 1, lockTime := 0,
    inputs := [{ txid := genesisTxId, index := 0, signature := "sig" }],
    outputs := [{ amount := 18446744073709551615, pubKeyHash := "mallory" },
                { amount := 2, pubKeyHash := "mallory" }] }

/-- Header on top of `genesisLedger` with the given Merkle root and nonce. -/
def headerOnGenesis (merkleRoot : String) (nonce : Nat) : BlockHeader :=
  { version := 1, prevBlockHash := genesisHash, merkleRoot := merkleRoot,
    timestamp := 1700000600, difficultyTarget := 520159231, nonce := nonce }

/-- A block on the genesis tip with a valid nonce and a correct Merkle root:
a valid spend followed by a transaction with a missing input. -/
def halfAppliedBlock : Block :=
  { header := headerOnGenesis
      "6af128a4f4146520bd11744fd99c56a28adc1443abdf0b622cb3bfb4d71b6164" 118380,
    transactions := [spendTx, orphanTx] }

/-- The miner's candidate as `mineBlock` submits it: `createNewBlock` at clock
`now`, then `buildMerkleRoot`, then `header.nonce` counted up to `nonce`. -/
def minedCandidate (now : Nat) (minerPubKeyHash : String) (nonce : Nat) (L : Blockchain) :
    Option Block :=
  (L.createNewBlock now minerPubKeyHash).map
    (fun c => { c.buildMerkleRoot with header := { c.buildMerkleRoot.header with nonce := nonce } })

/-- A block on the genesis tip with a valid nonce, no transaction, and the
Merkle root of the empty list. -/
def emptyBlock : Block :=
  { header := headerOnGenesis
      "0000000000000000000000000000000000000000000000000000000000000000" 49912,
    transactions := [] }

/-- The header of `emptyBlock` carrying one transaction: its Merkle root is not
the root of its transaction list. -/
def badRootBlock : Block :=
  { header := emptyBlock.header, transactions := [spendTx] }

/-- A block on the genesis tip with a valid nonce and a correct Merkle root,
whose only transaction is the ordinary spend `spendTx`. -/
def spendBlock : Block :=
  { header := headerOnGenesis
      "4660aa0a07975521e5c80564a1509962de6d763cf1fc57bae9dbcfc339b3bfa2" 18279,
    transactions := [spendTx] }

/-- A block on the genesis tip with a valid nonce and a correct Merkle root,
whose only transaction is `doubleTx`. -/
def doubleCountBlock : Block :=
  { header := headerOnGenesis
      "7f43ef0edd7fb49cc6b655a4d5902ae3106cc73e69e1bf86da10bd3a7147f95d" 232365,
    transactions := [doubleTx] }

/-- The configuration of the halving scenario: blockReward 50, blockHalvingInterval 2. -/
def halvingConfig : Config := { blockHalvingInterval := 2 }

/-- The ledger built from `halvingConfig`, then extended by `emptyBlock`: chain length 2. -/
def halvingLedger : Blockchain :=
  (Blockchain.new halvingConfig 1700000000 UTXOSet.empty).afterAddBlock emptyBlock

/-- A block on top of `emptyBlock` with a valid nonce and a correct Merkle
root, whose first transaction pays out 50 * 10^8. -/
def heightTwoBlock : Block :=
  { header := { version := 1,
                prevBlockHash := "000011fdc680f7f0d98df6633e2cb161f94ccf263f99754e8fe7de2e75a2bd36",
                merkleRoot := "4660aa0a07975521e5c80564a1509962de6d763cf1fc57bae9dbcfc339b3bfa2",
                timestamp := 1700001200, difficultyTarget := 520159231, nonce := 21706 },
    transactions := [spendTx] }

/-! ## Serializations as the specification words them -/

/-- Specification of the transaction serialization: the decimal version, the
decimal lock-time, then for each input in order its txid, decimal index and
signature, then for each output in order its decimal amount and pubKeyHash,
each appended to what was written so far; `dec` is `Nat.repr`. -/
def specTxSerialization (version lockTime : Nat) (inputs : List TxInput)
    (outputs : List TxOutput) : String :=
  outputs.foldl (fun written o => written ++ Nat.repr o.amount ++ o.pubKeyHash)
    (inputs.foldl (fun written i => written ++ i.txid ++ Nat.repr i.index ++ i.signature)
      (Nat.repr version ++ Nat.repr lockTime))

/-- Specification of the block id as a function of the six header fields. -/
def specBlockId (version : Nat) (prevBlockHash merkleRoot : String)
    (timestamp difficultyTarget nonce : Nat) : String :=
  sha256 (String.join [Nat.repr version, prevBlockHash, merkleRoot, Nat.repr timestamp,
    Nat.repr difficultyTarget, Nat.repr nonce])

/-! ## Further ledgers used to evaluate the code -/

/-- The ledger after the call `createNewBlock(m)`: the method reads `chain`,
`blockReward`, `blockHalvingInterval`, `difficultyTarget` and `g_totalBlocks`
and assigns to no member and to no global. -/
def Blockchain.afterCreateNewBlock (L : Blockchain) (_now : Nat) (_minerPubKeyHash : String) :
    Blockchain := L

/-- The ledger built from `halvingConfig` (blockReward 50, blockHalvingInterval 2)
at clock 1700000000: genesis only. -/
def halvingGenesisLedger : Blockchain := Blockchain.new halvingConfig 1700000000 UTXOSet.empty

/-- A configuration whose halving interval is zero. -/
def zeroIntervalConfig : Config := { blockHalvingInterval := 0 }

/-- The ledger built from `zeroIntervalConfig` at clock 1700000000. -/
def zeroIntervalLedger : Blockchain :=
  Blockchain.new zeroIntervalConfig 1700000000 UTXOSet.empty

/-- Specification of the reward schedule: `reward(h) = blockReward >> (h /
blockHalvingInterval)`, and `0` once the shift count reaches 64. -/
def specReward (blockReward blockHalvingInterval h : Nat) : Nat :=
  if h / blockHalvingInterval < 64 then blockReward >>> (h / blockHalvingInterval) else 0

/-! ## Calls as steps on the state -/

/-- Map `operator[](key)` as an expression: the mapped value and the map
afterwards. A key that is absent is first inserted with a value-initialized
`UTXO` (amount 0, empty pubKeyHash). -/
def UTXOSet.index (u : UTXOSet) (key : String) : UTXO × UTXOSet :=
  match u key with
  | some entry => (entry, u)
  | none => (⟨0, ""⟩, u.assign key ⟨0, ""⟩)

/-- The first loop of `validateTransaction`, with the map threaded through:
`g_utxoSet.find(key) == g_utxoSet.end()` returns false, otherwise
`inputSum += g_utxoSet[key].amount` goes through `operator[]`. -/
def sumInputsCall : UTXOSet → List TxInput → Nat → Option Nat × UTXOSet
  | u, [], inputSum => (some inputSum, u)
  | u, i :: rest, inputSum =>
    match u (utxoKey i.txid i.index) with
    | none => (none, u)
    | some _ =>
      let r := u.index (utxoKey i.txid i.index)
      sumInputsCall r.2 rest ((inputSum + r.1.amount) % 2 ^ 64)

/-- Source `Blockchain::validateTransaction` as a call on the ledger: the
returned flag and the ledger afterwards. -/
def Blockchain.validateTransactionCall (L : Blockchain) (tx : Transaction) :
    Bool × Blockchain :=
  let r := sumInputsCall L.g_utxoSet tx.inputs 0
  let L2 := { L with g_utxoSet := r.2 }
  match r.1 with
  | none => (false, L2)
  | some inputSum =>
    let outputSum := sumOutputs tx.outputs 0
    if outputSum > inputSum then (false, L2) else (true, L2)

/-- Ledger states reached from construction by any sequence of `addBlock` and
`createNewBlock` calls. -/
inductive ReachableByCalls (cfg : Config) : Blockchain → Prop
  | init (now : Nat) : ReachableByCalls cfg (Blockchain.new cfg now UTXOSet.empty)
  | addBlock {L : Blockchain} (b : Block) (r : Bool) (L2 : Blockchain) :
      ReachableByCalls cfg L → L.addBlock b = some (r, L2) → ReachableByCalls cfg L2
  | createNewBlock {L : Blockchain} (now : Nat) (minerPubKeyHash : String) :
      ReachableByCalls cfg L → ReachableByCalls cfg (L.afterCreateNewBlock now minerPubKeyHash)

/-! ## Two `addBlock` calls running at once

`addBlock` takes `g_blockchainMutex` in one place only, the block around
`chain.push_back(newBlock); g_totalBlocks++;`. The call is cut here into the
three stretches that the lock separates; a thread runs them in order and
another thread may run between them. -/

/-- Where a thread stands inside `addBlock`. -/
inductive AddBlockStage
  | checks
  | transactions
  | commit
  | returned (flag : Bool)
  deriving DecidableEq, Repr

/-- One stretch of `addBlock` for the block `newBlock`, from the stage given:
the link and proof-of-work checks (mutex not held), then
`validateAndApplyTransactions` (mutex not held), then the push and the counter
increment (mutex held). `none` when `chain.back()` is read on an empty chain
or the call has already returned. -/
def addBlockStretch (newBlock : Block) (L : Blockchain) :
    AddBlockStage → Option (Blockchain × AddBlockStage)
  | .checks =>
    match L.getLatestBlock with
    | none => none
    | some latest =>
      if newBlock.header.prevBlockHash ≠ latest.getBlockHash then some (L, .returned false)
      else if !isValidProofOfWork newBlock then some (L, .returned false)
      else some (L, .transactions)
  | .transactions =>
    let r := validateAndApplyTransactions L.g_utxoSet newBlock.transactions
    if !r.1 then some ({ L with g_utxoSet := r.2 }, .returned false)
    else some ({ L with g_utxoSet := r.2 }, .commit)
  | .commit =>
    some ({ L with chain := L.chain ++ [newBlock],
                   g_totalBlocks := (L.g_totalBlocks + 1) % 2 ^ 64 }, .returned true)
  | .returned _ => none

/-- One thread alone: run stretches until the call returns (three are enough). -/
def runAlone (newBlock : Block) : Nat → Blockchain → AddBlockStage → Option (Bool × Blockchain)
  | _, L, .returned flag => some (flag, L)
  | 0, _, _ => none
  | fuel + 1, L, stage =>
    match addBlockStretch newBlock L stage with
    | none => none
    | some (L2, stage2) => runAlone newBlock fuel L2 stage2

/-- The shared ledger and the stages of two threads, one calling `addBlock(b1)`
and one calling `addBlock(b2)`. -/
structure TwoCalls where
  ledger : Blockchain
  first : AddBlockStage
  second : AddBlockStage

/-- Run a schedule: `true` lets the first thread run its next stretch, `false`
the second. Each stretch runs whole, so the two locked stretches never overlap. -/
def runSchedule (b1 b2 : Block) : List Bool → TwoCalls → Option TwoCalls
  | [], s => some s
  | true :: rest, s =>
    match addBlockStretch b1 s.ledger s.first with
    | none => none
    | some (L2, stage) => runSchedule b1 b2 rest { s with ledger := L2, first := stage }
  | false :: rest, s =>
    match addBlockStretch b2 s.ledger s.second with
    | none => none
    | some (L2, stage) => runSchedule b1 b2 rest { s with ledger := L2, second := stage }

/-! ## Transactions used for the serialization and the UTXO postcondition -/

/-- A transaction with the given inputs and outputs, version 1 and lock-time 23. -/
def txOneTwentyThree (inputs : List TxInput) (outputs : List TxOutput) : Transaction :=
  { inputs := inputs, outputs := outputs, version := 1, lockTime := 23 }

/-- A transaction with the given inputs and outputs, version 12 and lock-time 3. -/
def txTwelveThree (inputs : List TxInput) (outputs : List TxOutput) : Transaction :=
  { inputs := inputs, outputs := outputs, version := 12, lockTime := 3 }

/-- Reading a decimal string back: the value of the digits, most significant first. -/
def readDecimal (cs : List Char) : Nat :=
  cs.foldl (fun acc ch => acc * 10 + (ch.toNat - 48)) 0

/-! ## General facts about the embedding -/

set_option maxRecDepth 1000000

/-- Hex formatting doubles the length. -/
theorem length_flatMap_hexByte (bs : List Nat) : (bs.flatMap hexByte).length = 2 * bs.length := by
  induction bs with
  | nil => rfl
  | cons b rest ih =>
    simp only [List.flatMap_cons, List.length_append, ih, List.length_cons, hexByte,
      List.length_nil]
    omega

/-- The library routine writes 32 bytes. -/
theorem SHA256_length (input : String) : (SHA256 input).length = 32 := by
  simp [SHA256, sha256Words, bigEndian, List.flatMap_cons]

/-- The hex digest has 64 characters. -/
theorem sha256_length (input : String) : (sha256 input).length = 64 := by
  rw [sha256, String.length_mk, length_flatMap_hexByte, SHA256_length]

/-- The hash written out above agrees with the published SHA-256 test vectors
for the empty message, for `"abc"` and for the 56-byte two-block message. -/
theorem sha256_test_vectors :
    sha256 "" = "e3b0c44298fc1c149afbf4c8996fb92427ae41e4649b934ca495991b7852b855" ∧
    sha256 "abc" = "ba7816bf8f01cfea414140de5dae2223b00361a396177a9cb410ff61f20015ad" ∧
    sha256 "abcdbcdecdefdefgefghfghighijhijkijkljklmklmnlmnomnopnopq" =
      "248d6a61d20638b8e5c026930c3e6039a33ce45964ff2167f6ecedd419db06c1" := by
  decide

/-- The concrete ledger `genesisLedger` has the genesis block id and coinbase
transaction id recorded in `genesisHash` and `genesisTxId`. -/
theorem genesisLedger_ids :
    genesisLedger.chain.map Block.getBlockHash = [genesisHash] ∧
    genesisLedger.chain.map (fun b => b.transactions.map Transaction.getTxId) =
      [[genesisTxId]] := by
  decide

/-- A rejected or accepted block: what `addBlock` does, by cases on its three checks. -/
theorem addBlock_eq (L : Blockchain) (b : Block) (tip : Block)
    (htip : L.getLatestBlock = some tip) :
    L.addBlock b =
      if b.header.prevBlockHash ≠ tip.getBlockHash then some (false, L)
      else if isValidProofOfWork b = false then some (false, L)
      else if (validateAndApplyTransactions L.g_utxoSet b.transactions).1 = false then
        some (false, { L with
          g_utxoSet := (validateAndApplyTransactions L.g_utxoSet b.transactions).2 })
      else some (true, { L with
          g_utxoSet := (validateAndApplyTransactions L.g_utxoSet b.transactions).2,
          chain := L.chain ++ [b],
          g_totalBlocks := (L.g_totalBlocks + 1) % 2 ^ 64 }) := by
  unfold Blockchain.addBlock
  rw [htip]
  simp only [ne_eq, Bool.not_eq_true', ite_not]

/-- The chain after `addBlock`: unchanged on rejection, extended by the block on acceptance. -/
theorem addBlock_chain (L L2 : Blockchain) (b : Block) (r : Bool)
    (h : L.addBlock b = some (r, L2)) :
    (r = false ∧ L2.chain = L.chain) ∨
    (r = true ∧ L2.chain = L.chain ++ [b] ∧
      ∃ tip, L.chain.getLast? = some tip ∧ b.header.prevBlockHash = tip.getBlockHash) := by
  cases htip : L.getLatestBlock with
  | none => simp [Blockchain.addBlock, htip] at h
  | some tip =>
    rw [addBlock_eq L b tip htip] at h
    split_ifs at h with h1 h2 h3
    · simp only [Option.some.injEq, Prod.mk.injEq] at h
      left; exact ⟨h.1.symm, by rw [← h.2]⟩
    · simp only [Option.some.injEq, Prod.mk.injEq] at h
      left; exact ⟨h.1.symm, by rw [← h.2]⟩
    · simp only [Option.some.injEq, Prod.mk.injEq] at h
      left; exact ⟨h.1.symm, by rw [← h.2]⟩
    · simp only [Option.some.injEq, Prod.mk.injEq] at h
      right
      refine ⟨h.1.symm, by rw [← h.2], tip, htip, ?_⟩
      simpa using h1

/-- Consecutive blocks of a reachable chain are linked. -/
theorem reachable_linked (cfg : Config) (L : Blockchain) (hL : Reachable cfg L) :
    List.Chain' (fun p b : Block => b.header.prevBlockHash = p.getBlockHash) L.chain := by
  induction hL with
  | init now => simp [Blockchain.new]
  | step b r L2 _ hstep ih =>
    rcases addBlock_chain _ _ _ _ hstep with ⟨_, hc⟩ | ⟨_, hc, tip, htip, hlink⟩
    · rw [hc]; exact ih
    · rw [hc]
      refine List.Chain'.append ih (List.chain'_singleton b) ?_
      intro x hx y hy
      simp only [List.head?_cons, Option.mem_def, Option.some.injEq] at hy
      rw [Option.mem_def, htip, Option.some.injEq] at hx
      subst hx; subst hy
      exact hlink

/-- The chain of a reachable ledger is never empty. -/
theorem reachable_chain_ne_nil (cfg : Config) (L : Blockchain) (hL : Reachable cfg L) :
    L.chain ≠ [] := by
  induction hL with
  | init now => simp [Blockchain.new]
  | step b r L2 _ hstep ih =>
    rcases addBlock_chain _ _ _ _ hstep with ⟨_, hc⟩ | ⟨_, hc, _⟩
    · rw [hc]; exact ih
    · rw [hc]; simp

/-- On a non-empty chain `addBlock` returns. -/
theorem addBlock_isSome (L : Blockchain) (b : Block) (h : L.chain ≠ []) :
    ∃ r L2, L.addBlock b = some (r, L2) := by
  cases htip : L.getLatestBlock with
  | none =>
    simp only [Blockchain.getLatestBlock, List.getLast?_eq_none_iff] at htip
    exact absurd htip h
  | some tip =>
    rw [addBlock_eq L b tip htip]
    split_ifs <;> exact ⟨_, _, rfl⟩

/-- The ledger after an `addBlock` call on a reachable ledger is reachable. -/
theorem reachable_afterAddBlock (cfg : Config) (L : Blockchain) (b : Block)
    (hL : Reachable cfg L) : Reachable cfg (L.afterAddBlock b) := by
  obtain ⟨r, L2, h⟩ := addBlock_isSome L b (reachable_chain_ne_nil cfg L hL)
  have : L.afterAddBlock b = L2 := by simp [Blockchain.afterAddBlock, h]
  rw [this]
  exact Reachable.step b r L2 hL h

/-! ## C3: chain linkage -/

/-- C3. In every ledger state reachable from construction by `addBlock` calls
(accepted or rejected), each block at index `i + 1` of the chain carries in
`header.prevBlockHash` the block hash of the block at index `i`. -/
theorem chain_linkage (cfg : Config) (L : Blockchain) (hL : Reachable cfg L)
    (i : Nat) (p b : Block) (hp : L.chain[i]? = some p) (hb : L.chain[i + 1]? = some b) :
    b.header.prevBlockHash = p.getBlockHash := by
  have hch := reachable_linked cfg L hL
  rw [List.chain'_iff_get] at hch
  have hi : i + 1 < L.chain.length := by
    rcases List.getElem?_eq_some_iff.mp hb with ⟨h, _⟩
    exact h
  have h := hch i (by omega)
  rcases List.getElem?_eq_some_iff.mp hb with ⟨h1, e1⟩
  rcases List.getElem?_eq_some_iff.mp hp with ⟨h0, e0⟩
  simp only [List.get_eq_getElem] at h
  rw [e1, e0] at h
  exact h

/-- C3 at a chain of two blocks: genesis followed by `emptyBlock`. -/
theorem chain_linkage_witness :
    emptyBlock.header.prevBlockHash =
      (createGenesisBlock 50 0x1f00ffff 1700000000 "Hello from Genesis!").getBlockHash :=
  chain_linkage {} (genesisLedger.afterAddBlock emptyBlock)
    (reachable_afterAddBlock {} genesisLedger emptyBlock (Reachable.init 1700000000))
    0 _ _ (by decide) (by decide)

/-! ## C9: the Merkle root is the specified reduction -/

/-- The pairing loop of the source computes the pairing of the specification. -/
theorem hashPairs_eq_specPairs : ∀ level : List String, hashPairs level = specPairs level
  | [] => by simp [hashPairs, specPairs]
  | [a] => by simp [hashPairs, specPairs]
  | a :: b :: rest => by
    have ih := hashPairs_eq_specPairs rest
    have hlen : (a :: b :: rest).length / 2 = rest.length / 2 + 1 := by
      simp only [List.length_cons]; omega
    rw [hashPairs, ih]
    unfold specPairs
    rw [hlen, List.range_succ_eq_map, List.map_cons, List.map_map]
    congr 1

/-- Length of the level after one reduction step. -/
theorem specPairs_specPad_length (level : List String) :
    (specPairs (specPad level)).length = (level.length + 1) / 2 := by
  unfold specPairs specPad
  simp only [List.length_map, List.length_range]
  split
  · rw [List.length_append, List.length_singleton]
  · omega

/-- The padding step of the source loop is the padding of the specification. -/
theorem pad_eq_specPad (level : List String) :
    (if level.length % 2 ≠ 0 then level ++ [level.getLastD ""] else level) = specPad level := by
  unfold specPad
  by_cases h : level.length % 2 = 1
  · rw [if_pos h, if_pos (by omega)]
  · rw [if_neg h, if_neg (by omega)]

/-- With at least `length - 1` iterations allowed, the loop ends on the one-element
level holding the specified root. -/
theorem merkleLoop_eq_spec : ∀ (fuel : Nat) (level : List String),
    level ≠ [] → level.length ≤ fuel + 1 → merkleLoop fuel level = [merkleSpec level]
  | 0, [], h, _ => absurd rfl h
  | 0, [a], _, _ => by simp [merkleLoop, merkleSpec]
  | 0, _ :: _ :: _, _, h => by simp at h
  | _ + 1, [], h, _ => absurd rfl h
  | _ + 1, [a], _, _ => by simp [merkleLoop, merkleSpec]
  | fuel + 1, a :: b :: rest, _, hlen => by
    have hl := specPairs_specPad_length (a :: b :: rest)
    have hne : specPairs (specPad (a :: b :: rest)) ≠ [] := by
      intro h0
      rw [h0] at hl
      simp only [List.length_nil, List.length_cons] at hl
      omega
    have hle : (specPairs (specPad (a :: b :: rest))).length ≤ fuel + 1 := by
      rw [hl]
      simp only [List.length_cons] at hlen ⊢
      omega
    have ih := merkleLoop_eq_spec fuel _ hne hle
    have hgt : (a :: b :: rest).length > 1 := by simp
    rw [merkleLoop, if_pos hgt]
    simp only []
    rw [pad_eq_specPad, hashPairs_eq_specPairs, ih, merkleSpec]

/-- C9. For every non-empty list of leaf strings `calculateMerkleRoot` returns
the root of the reference reduction (one element: that element; otherwise pad
an odd level with a copy of its last element, replace each adjacent pair by
`sha256(left ++ right)`, repeat), the loop reaching it within any iteration
bound of at least the length; in particular `root([a]) = a`,
`root([a,b]) = H(a++b)` and `root([a,b,c]) = H(H(a++b) ++ H(c++c))`. -/
theorem calculateMerkleRoot_eq_spec (xs : List String) (hxs : xs ≠ []) :
    calculateMerkleRoot xs = merkleSpec xs ∧
    (∀ fuel, xs.length ≤ fuel → merkleLoop fuel xs = [merkleSpec xs]) ∧
    (∀ a, calculateMerkleRoot [a] = a) ∧
    (∀ a b, calculateMerkleRoot [a, b] = sha256 (a ++ b)) ∧
    (∀ a b c, calculateMerkleRoot [a, b, c] =
      sha256 (sha256 (a ++ b) ++ sha256 (c ++ c))) := by
  have key : ∀ ys : List String, ys ≠ [] → calculateMerkleRoot ys = merkleSpec ys := by
    intro ys hys
    have hemp : ys.isEmpty = false := by
      cases ys with
      | nil => exact absurd rfl hys
      | cons _ _ => rfl
    rw [calculateMerkleRoot, hemp, merkleLoop_eq_spec ys.length ys hys (by omega)]
    simp
  refine ⟨key xs hxs, ?_, ?_, ?_, ?_⟩
  · intro fuel hf
    exact merkleLoop_eq_spec fuel xs hxs (by omega)
  · intro a
    simp [calculateMerkleRoot, merkleLoop]
  · intro a b
    simp [calculateMerkleRoot, merkleLoop, hashPairs]
  · intro a b c
    simp [calculateMerkleRoot, merkleLoop, hashPairs]

/-- C9 at the three-leaf list `["a", "b", "c"]`. -/
theorem calculateMerkleRoot_eq_spec_witness :
    calculateMerkleRoot ["a", "b", "c"] = merkleSpec ["a", "b", "c"] :=
  (calculateMerkleRoot_eq_spec ["a", "b", "c"] (by decide)).1

/-! ## C10: the reward schedule -/

/-- C10. For a 64-bit initial reward `R`, a halving interval `I > 0` and block
count `h`, `getBlockReward` returns `R >> (h / I)` when `h / I < 64` and `0`
otherwise; so it is `R` at count 0, `R / 2` at count `I`, `R / 2^k` at count
`k * I`, and `0` at every count `h ≥ 64 * I`. -/
theorem getBlockReward_schedule (L : Blockchain) (hI : 0 < L.blockHalvingInterval)
    (hR : L.blockReward < 2 ^ 64) :
    L.getBlockReward =
        some (if L.g_totalBlocks / L.blockHalvingInterval < 64
              then L.blockReward >>> (L.g_totalBlocks / L.blockHalvingInterval) else 0) ∧
    (L.g_totalBlocks = 0 → L.getBlockReward = some L.blockReward) ∧
    (L.g_totalBlocks = L.blockHalvingInterval → L.getBlockReward = some (L.blockReward / 2)) ∧
    (∀ k, L.g_totalBlocks = k * L.blockHalvingInterval →
      L.getBlockReward = some (L.blockReward / 2 ^ k)) ∧
    (64 * L.blockHalvingInterval ≤ L.g_totalBlocks → L.getBlockReward = some 0) := by
  have hne : L.blockHalvingInterval ≠ 0 := by omega
  have main : L.getBlockReward =
      some (if L.g_totalBlocks / L.blockHalvingInterval < 64
            then L.blockReward >>> (L.g_totalBlocks / L.blockHalvingInterval) else 0) := by
    unfold Blockchain.getBlockReward
    rw [if_neg hne]
    by_cases h : L.g_totalBlocks / L.blockHalvingInterval < 64
    · simp only [ge_iff_le, if_pos h, if_neg (Nat.not_le.mpr h)]
    · simp only [ge_iff_le, if_neg h, if_pos (Nat.not_lt.mp h)]
  have hk : ∀ k, L.g_totalBlocks = k * L.blockHalvingInterval →
      L.getBlockReward = some (L.blockReward / 2 ^ k) := by
    intro k hk
    rw [main, hk, Nat.mul_div_cancel _ hI]
    by_cases h : k < 64
    · rw [if_pos h, Nat.shiftRight_eq_div_pow]
    · rw [if_neg h]
      have h2 : 2 ^ 64 ≤ 2 ^ k := Nat.pow_le_pow_right (by decide) (Nat.not_lt.mp h)
      rw [Nat.div_eq_of_lt (by omega)]
  refine ⟨main, ?_, ?_, hk, ?_⟩
  · intro h0
    have := hk 0 (by rw [h0]; simp)
    simpa using this
  · intro h1
    have := hk 1 (by rw [h1]; simp)
    simpa using this
  · intro h64
    rw [main]
    have : ¬ L.g_totalBlocks / L.blockHalvingInterval < 64 := by
      rw [Nat.not_lt]
      exact (Nat.le_div_iff_mul_le hI).mpr h64
    rw [if_neg this]

/-- C10 at reward 50, interval 210000 and count 420000: the reward is `50 / 2^2`. -/
theorem getBlockReward_schedule_witness :
    Blockchain.getBlockReward { genesisLedger with g_totalBlocks := 420000 } = some (50 / 2 ^ 2) :=
  (getBlockReward_schedule { genesisLedger with g_totalBlocks := 420000 }
    (by decide) (by decide)).2.2.2.1 2 (by decide)

/-! ## Evaluating `addBlock` -/

/-- The flag and the ledger after the call determine what `addBlock` returned. -/
theorem addBlock_of_result (L : Blockchain) (b : Block) (r : Bool)
    (h : L.addBlockResult b = some r) : L.addBlock b = some (r, L.afterAddBlock b) := by
  unfold Blockchain.addBlockResult at h
  unfold Blockchain.afterAddBlock
  cases hadd : L.addBlock b with
  | none => rw [hadd] at h; simp at h
  | some p =>
    rw [hadd] at h
    simp only [Option.map_some', Option.some.injEq] at h
    rw [← h]

/-- An accepted block passed the three checks of `addBlock`. -/
theorem addBlock_true_iff (L : Blockchain) (b : Block) (tip : Block)
    (htip : L.getLatestBlock = some tip) :
    L.addBlockResult b = some true ↔
      (b.header.prevBlockHash = tip.getBlockHash ∧ isValidProofOfWork b = true ∧
        (validateAndApplyTransactions L.g_utxoSet b.transactions).1 = true) := by
  unfold Blockchain.addBlockResult
  rw [addBlock_eq L b tip htip]
  split_ifs with h1 h2 h3 <;> simp_all

/-! ## C1: a rejected block can leave the UTXO map changed -/

/-- C1, the code at the failing input. `halfAppliedBlock` extends the genesis tip
with valid proof of work; its first transaction spends the genesis output and
its second names a missing output. `addBlock` returns false, the chain is
unchanged, and yet the genesis output is gone from the UTXO map and the first
transaction's output has been inserted. -/
theorem addBlock_rejected_block_half_applied :
    genesisLedger.addBlockResult halfAppliedBlock = some false ∧
    (genesisLedger.afterAddBlock halfAppliedBlock).chain = genesisLedger.chain ∧
    genesisLedger.g_utxoSet (utxoKey genesisTxId 0) =
      some ⟨5000000000, sha256 "genesis-pubkey"⟩ ∧
    (genesisLedger.afterAddBlock halfAppliedBlock).g_utxoSet (utxoKey genesisTxId 0) = none ∧
    (genesisLedger.afterAddBlock halfAppliedBlock).g_utxoSet (utxoKey spendTx.getTxId 0) =
      some ⟨5000000000, "alice"⟩ := by
  decide

/-! ## C2: the miner's own candidate is rejected -/

/-- The key `"0:0"` of a coinbase input is not in the map the constructor builds. -/
theorem new_utxo_coinbase_key (cfg : Config) (now : Nat) :
    (Blockchain.new cfg now UTXOSet.empty).g_utxoSet (utxoKey "0" 0) = none := by
  simp only [Blockchain.new, createGenesisBlock, Block.buildMerkleRoot, List.headD_cons,
    insertOutputs, UTXOSet.assign, UTXOSet.empty]
  rw [if_neg]
  intro h
  have hlen := congrArg String.length h
  simp only [utxoKey, String.length_append, Transaction.getTxId, sha256_length] at hlen
  revert hlen
  decide

/-- C2, the code at the failing input and beyond. On the freshly constructed
default ledger, for every clock value, miner commitment `m` and nonce `n`, the
candidate built by `createNewBlock(m)`, `buildMerkleRoot` and `nonce = n` exists
and `addBlock` returns false on it, leaving the ledger as it was: its coinbase
input key `"0:0"` is looked up in the UTXO map like any other input. The nonce
203085 for `"minerKey"` at clock 1700000600 gives a candidate with valid proof
of work, which is rejected all the same. -/
theorem addBlock_rejects_mined_candidate :
    (∀ (now t : Nat) (m : String) (n : Nat),
      ∃ c, minedCandidate t m n (Blockchain.new {} now UTXOSet.empty) = some c ∧
        (Blockchain.new {} now UTXOSet.empty).addBlock c =
          some (false, Blockchain.new {} now UTXOSet.empty)) ∧
    (minedCandidate 1700000600 "minerKey" 203085 genesisLedger).map isValidProofOfWork
      = some true ∧
    (minedCandidate 1700000600 "minerKey" 203085 genesisLedger).map
      (fun c => genesisLedger.addBlockResult c) = some (some false) := by
  refine ⟨?_, by decide, by decide⟩
  intro now t m n
  have hkey := new_utxo_coinbase_key {} now
  have htip : (Blockchain.new {} now UTXOSet.empty).getLatestBlock =
      some (createGenesisBlock 50 0x1f00ffff now "Hello from Genesis!") := rfl
  have hreward : (Blockchain.new {} now UTXOSet.empty).getBlockReward = some 50 := by
    simp [Blockchain.getBlockReward, Blockchain.new]
  have hcand : (Blockchain.new {} now UTXOSet.empty).createNewBlock t m =
      some { header := { version := 1,
                         prevBlockHash :=
                           (createGenesisBlock 50 0x1f00ffff now "Hello from Genesis!").getBlockHash,
                         merkleRoot := "", timestamp := t, difficultyTarget := 0x1f00ffff,
                         nonce := 0 },
             transactions :=
               [{ version := 1, lockTime := 0,
                  inputs := [{ txid := "0", index := 0, signature := "coinbase" }],
                  outputs := [{ amount := 5000000000, pubKeyHash := m }] }] } := by
    simp only [Blockchain.createNewBlock, htip, hreward]
    rfl
  have hval : ∀ u : UTXOSet, u (utxoKey "0" 0) = none →
      validateAndApplyTransactions u
        [{ version := 1, lockTime := 0,
           inputs := [{ txid := "0", index := 0, signature := "coinbase" }],
           outputs := [{ amount := 5000000000, pubKeyHash := m }] }] = (false, u) := by
    intro u hu
    simp only [validateAndApplyTransactions, validateTransaction, sumInputs, hu,
      Bool.not_false, if_true]
  rw [minedCandidate, hcand, Option.map_some']
  refine ⟨_, rfl, ?_⟩
  rw [addBlock_eq _ _ _ htip]
  simp only [Block.buildMerkleRoot, hval _ hkey]
  split_ifs <;> rfl

/-! ## C4: no Merkle comparison in `addBlock` -/

/-- The root set by `buildMerkleRoot` is the root of the block's own transactions. -/
theorem buildMerkleRoot_root (c : Block) :
    c.buildMerkleRoot.header.merkleRoot =
      calculateMerkleRoot (c.buildMerkleRoot.transactions.map Transaction.getTxId) := rfl

/-- The first block of a reachable chain has a root reproducible from its transactions. -/
theorem reachable_head_root (cfg : Config) (L : Blockchain) (hL : Reachable cfg L) :
    ∃ g, L.chain.head? = some g ∧
      g.header.merkleRoot = calculateMerkleRoot (g.transactions.map Transaction.getTxId) := by
  induction hL with
  | init now => exact ⟨_, rfl, buildMerkleRoot_root _⟩
  | step b r L2 _ hstep ih =>
    obtain ⟨g, hg, hroot⟩ := ih
    rcases addBlock_chain _ _ _ _ hstep with ⟨_, hc⟩ | ⟨_, hc, _⟩
    · exact ⟨g, by rw [hc]; exact hg, hroot⟩
    · refine ⟨g, ?_, hroot⟩
      rw [hc]
      cases hch : Blockchain.chain _ with
      | nil => rw [hch] at hg; simp at hg
      | cons x xs => rw [hch] at hg; simpa using hg

/-- C4, counterexample. `badRootBlock` carries the header of `emptyBlock` (Merkle
root: the all-zero digest) and one transaction, so its header root differs from
the root recomputed from its transactions; `addBlock` on the genesis ledger
returns true and appends it. -/
theorem merkle_mismatch_accepted :
    badRootBlock.header.merkleRoot ≠
      calculateMerkleRoot (badRootBlock.transactions.map Transaction.getTxId) ∧
    genesisLedger.addBlockResult badRootBlock = some true ∧
    (genesisLedger.afterAddBlock badRootBlock).chain = genesisLedger.chain ++ [badRootBlock] := by
  decide

/-- C4, amended. `addBlock` never compares `header.merkleRoot` with the root
recomputed from the transactions: on a reachable ledger it returns true exactly
when the link check, the proof-of-work predicate and the transaction pass
succeed. A reproducible root is what `buildMerkleRoot` establishes, and it holds
for the block at index 0 of every reachable chain. -/
theorem addBlock_no_merkle_check (cfg : Config) (L : Blockchain) (hL : Reachable cfg L)
    (b : Block) :
    (∃ tip, L.getLatestBlock = some tip ∧
      (L.addBlockResult b = some true ↔
        (b.header.prevBlockHash = tip.getBlockHash ∧ isValidProofOfWork b = true ∧
          (validateAndApplyTransactions L.g_utxoSet b.transactions).1 = true))) ∧
    (∃ g, L.chain[0]? = some g ∧
      g.header.merkleRoot = calculateMerkleRoot (g.transactions.map Transaction.getTxId)) ∧
    b.buildMerkleRoot.header.merkleRoot =
      calculateMerkleRoot (b.buildMerkleRoot.transactions.map Transaction.getTxId) := by
  refine ⟨?_, ?_, buildMerkleRoot_root b⟩
  · cases htip : L.getLatestBlock with
    | none =>
      simp only [Blockchain.getLatestBlock, List.getLast?_eq_none_iff] at htip
      exact absurd htip (reachable_chain_ne_nil cfg L hL)
    | some tip => exact ⟨tip, rfl, addBlock_true_iff L b tip htip⟩
  · obtain ⟨g, hg, hroot⟩ := reachable_head_root cfg L hL
    refine ⟨g, ?_, hroot⟩
    rw [← hg, List.head?_eq_getElem?]

/-- C4 amended, at the genesis ledger and `badRootBlock`. -/
theorem addBlock_no_merkle_check_witness :
    ∃ g, genesisLedger.chain[0]? = some g ∧
      g.header.merkleRoot = calculateMerkleRoot (g.transactions.map Transaction.getTxId) :=
  (addBlock_no_merkle_check {} genesisLedger (Reachable.init 1700000000) badRootBlock).2.1

/-! ## C5: one output listed twice in a transaction -/

/-- C5, the code at the failing input. `doubleCountBlock` extends the genesis tip
with valid proof of work and a correct Merkle root; its only transaction lists
the genesis output (5000000000) twice and pays out 10000000000. `addBlock`
returns true, appends the block, and the UTXO map then holds the 10000000000
output in place of the 5000000000 one. -/
theorem addBlock_accepts_repeated_input :
    (doubleTx.inputs.map (fun i => utxoKey i.txid i.index)) =
      [utxoKey genesisTxId 0, utxoKey genesisTxId 0] ∧
    genesisLedger.g_utxoSet (utxoKey genesisTxId 0) =
      some ⟨5000000000, sha256 "genesis-pubkey"⟩ ∧
    genesisLedger.addBlockResult doubleCountBlock = some true ∧
    (genesisLedger.afterAddBlock doubleCountBlock).chain =
      genesisLedger.chain ++ [doubleCountBlock] ∧
    (genesisLedger.afterAddBlock doubleCountBlock).g_utxoSet (utxoKey doubleTx.getTxId 0) =
      some ⟨10000000000, "mallory"⟩ := by
  decide

/-! ## C6: the 64-bit output sum wraps -/

/-- C6, the code at the failing input. `wrapTx` spends the genesis output of
5000000000 units; its two output amounts, each below 2^64, add up to 2^64 + 1.
The running `outputSum` wraps to 1 and `validateTransaction` returns true. -/
theorem validateTransaction_accepts_wrapped_sum :
    (∀ o ∈ wrapTx.outputs, o.amount < 2 ^ 64) ∧
    (wrapTx.outputs.map TxOutput.amount).sum = 2 ^ 64 + 1 ∧
    sumInputs genesisLedger.g_utxoSet wrapTx.inputs 0 = some 5000000000 ∧
    sumOutputs wrapTx.outputs 0 = 1 ∧
    validateTransaction genesisLedger.g_utxoSet wrapTx = true := by
  decide

/-! ## C7: no reward comparison in `addBlock` -/

/-- The first transaction of an accepted block passed `validateTransaction`
on the map as it was before the call. -/
theorem validateAndApply_head (u : UTXOSet) (tx0 : Transaction) (rest : List Transaction)
    (h : (validateAndApplyTransactions u (tx0 :: rest)).1 = true) :
    validateTransaction u tx0 = true := by
  rw [validateAndApplyTransactions] at h
  cases hv : validateTransaction u tx0 with
  | true => rfl
  | false => rw [hv] at h; simp at h

/-- C7, counterexample. With blockHalvingInterval 2 and blockReward 50, the
reachable ledger `halvingLedger` has chain length 2, so `getBlockReward` is 25.
`heightTwoBlock` has a single transaction (no other transaction, so no fee)
whose outputs total 50 * 10^8 > 25 * 10^8; `addBlock` returns true. -/
theorem reward_excess_accepted :
    Reachable halvingConfig halvingLedger ∧
    halvingLedger.chain.length = 2 ∧
    halvingLedger.blockReward >>> (2 / halvingLedger.blockHalvingInterval) = 25 ∧
    halvingLedger.getBlockReward = some 25 ∧
    heightTwoBlock.transactions.map (fun tx => (tx.outputs.map TxOutput.amount).sum) =
      [50 * 10 ^ 8] ∧
    25 * 10 ^ 8 + 0 < 50 * 10 ^ 8 ∧
    halvingLedger.addBlockResult heightTwoBlock = some true :=
  ⟨reachable_afterAddBlock halvingConfig _ emptyBlock (Reachable.init 1700000000),
    by decide, by decide, by decide, by decide, by decide, by decide⟩

/-- C7, amended. `addBlock` makes no comparison with the block reward. What an
accepted block guarantees about its first transaction is what it guarantees
about any transaction: every input key is in the UTXO map, and the 64-bit
running total of its outputs is at most the 64-bit running total of the
amounts its inputs reference. -/
theorem addBlock_first_tx_bound (L : Blockchain) (b : Block) (tx0 : Transaction)
    (rest : List Transaction) (hacc : L.addBlockResult b = some true)
    (htx : b.transactions = tx0 :: rest) :
    ∃ inputSum, sumInputs L.g_utxoSet tx0.inputs 0 = some inputSum ∧
      sumOutputs tx0.outputs 0 ≤ inputSum := by
  cases htip : L.getLatestBlock with
  | none => simp [Blockchain.addBlockResult, Blockchain.addBlock, htip] at hacc
  | some tip =>
    have h3 := ((addBlock_true_iff L b tip htip).mp hacc).2.2
    rw [htx] at h3
    have hv := validateAndApply_head _ _ _ h3
    unfold validateTransaction at hv
    cases hs : sumInputs L.g_utxoSet tx0.inputs 0 with
    | none => rw [hs] at hv; simp at hv
    | some s =>
      rw [hs] at hv
      refine ⟨s, rfl, ?_⟩
      by_contra hgt
      simp only [gt_iff_lt, if_pos (Nat.lt_of_not_le hgt)] at hv
      exact Bool.noConfusion hv

/-- C7 amended, at `halvingLedger` and `heightTwoBlock`. -/
theorem addBlock_first_tx_bound_witness :
    ∃ inputSum, sumInputs halvingLedger.g_utxoSet spendTx.inputs 0 = some inputSum ∧
      sumOutputs spendTx.outputs 0 ≤ inputSum :=
  addBlock_first_tx_bound halvingLedger heightTwoBlock spendTx [] (by decide) rfl

/-! ## C8: no structural check in `addBlock` -/

/-- C8, counterexample. On the genesis ledger `addBlock` returns true for
`emptyBlock`, whose transaction list is empty, and for `spendBlock`, whose first
transaction is not of coinbase form (its input names the genesis output, not
the null digest). -/
theorem unstructured_blocks_accepted :
    emptyBlock.transactions = [] ∧
    genesisLedger.addBlockResult emptyBlock = some true ∧
    (genesisLedger.afterAddBlock emptyBlock).chain = genesisLedger.chain ++ [emptyBlock] ∧
    spendBlock.transactions.map (fun tx => tx.inputs.map (fun i => i.txid == zeroDigest)) =
      [[false]] ∧
    genesisLedger.addBlockResult spendBlock = some true := by
  decide

/-- C8, amended. `addBlock` has no structural check. For a block that passes the
link and proof-of-work checks: with an empty transaction list it returns true,
appending the block and leaving the UTXO map as it was; and it returns false,
leaving the ledger as it was, when `transactions[0]` fails
`validateTransaction` (an input key missing from the UTXO map, or a wrapped
output total above the wrapped input total), whatever the shape of that
transaction. -/
theorem addBlock_without_structural_check (L : Blockchain) (b tip : Block)
    (htip : L.getLatestBlock = some tip)
    (hlink : b.header.prevBlockHash = tip.getBlockHash)
    (hpow : isValidProofOfWork b = true) :
    (b.transactions = [] →
      L.addBlock b = some (true, { L with chain := L.chain ++ [b],
                                          g_totalBlocks := (L.g_totalBlocks + 1) % 2 ^ 64 })) ∧
    (∀ tx0 rest, b.transactions = tx0 :: rest → validateTransaction L.g_utxoSet tx0 = false →
      L.addBlock b = some (false, L)) := by
  constructor
  · intro hnil
    rw [addBlock_eq L b tip htip, hnil]
    simp [hlink, hpow, validateAndApplyTransactions]
  · intro tx0 rest htx hval
    rw [addBlock_eq L b tip htip, htx]
    simp [hlink, hpow, validateAndApplyTransactions, hval]

/-- C8 amended, at the genesis ledger and `emptyBlock`. -/
theorem addBlock_without_structural_check_witness :
    genesisLedger.addBlock emptyBlock =
      some (true, { genesisLedger with chain := genesisLedger.chain ++ [emptyBlock],
                                       g_totalBlocks := (genesisLedger.g_totalBlocks + 1) % 2 ^ 64 }) :=
  (addBlock_without_structural_check genesisLedger emptyBlock
    (createGenesisBlock 50 0x1f00ffff 1700000000 "Hello from Genesis!")
    rfl (by decide) (by decide)).1 rfl

/-! ## C11: the proof-of-work predicate -/

/-- The loop of `isValidProofOfWork` on a string of at least four characters. -/
theorem all_four_zero (cs : List Char) (h : 4 ≤ cs.length) :
    ((List.range 4).all (fun i => cs.getD i (Char.ofNat 0) == '0') = true) ↔
      cs.take 4 = ['0', '0', '0', '0'] := by
  match cs, h with
  | a :: b :: c :: d :: rest, _ =>
    simp [List.range_succ, List.all_append, and_assoc]

/-- C11. For every block, `isValidProofOfWork` returns true exactly when the
first four characters of `getBlockHash` are all `'0'` (the block id always has
64 characters); the verdict is read off the block id alone and no comparison
with `header.difficultyTarget` takes place. -/
theorem isValidProofOfWork_iff (b : Block) :
    4 ≤ b.getBlockHash.length ∧
    (isValidProofOfWork b = true ↔ b.getBlockHash.data.take 4 = ['0', '0', '0', '0']) := by
  have hlen : b.getBlockHash.length = 64 := sha256_length _
  have hdata : b.getBlockHash.data.length = 64 := hlen
  refine ⟨by omega, ?_⟩
  unfold isValidProofOfWork
  exact all_four_zero _ (by omega)

/-! ## C12: proof of work along the chain -/

/-- What the step of `Reachable` tells about the flag: it is `addBlockResult`. -/
theorem addBlockResult_of_addBlock (L L2 : Blockchain) (b : Block) (r : Bool)
    (h : L.addBlock b = some (r, L2)) : L.addBlockResult b = some r := by
  simp [Blockchain.addBlockResult, h]

/-- Every block after the first of a reachable chain passed the proof-of-work predicate. -/
theorem reachable_tail_pow (cfg : Config) (L : Blockchain) (hL : Reachable cfg L) :
    ∀ b ∈ L.chain.tail, isValidProofOfWork b = true := by
  induction hL with
  | init now => simp [Blockchain.new]
  | @step L0 b r L2 hL0 hstep ih =>
    rcases addBlock_chain _ _ _ _ hstep with ⟨_, hc⟩ | ⟨hr, hc, tip, htip, _⟩
    · rw [hc]; exact ih
    · have hres := addBlockResult_of_addBlock _ _ _ _ hstep
      rw [hr] at hres
      have hpow := ((addBlock_true_iff L0 b tip htip).mp hres).2.1
      have hne := reachable_chain_ne_nil cfg L0 hL0
      rw [hc, List.tail_append_of_ne_nil hne]
      intro x hx
      rcases List.mem_append.mp hx with h | h
      · exact ih x h
      · rw [List.mem_singleton] at h
        rw [h]; exact hpow

/-- A block that fails the proof-of-work predicate is rejected with the ledger as it was. -/
theorem addBlock_pow_false (L : Blockchain) (b tip : Block)
    (htip : L.getLatestBlock = some tip) (hpow : isValidProofOfWork b = false) :
    L.addBlock b = some (false, L) := by
  rw [addBlock_eq L b tip htip]
  split_ifs <;> rfl

/-- C12. In every ledger state reachable from construction by `addBlock` calls,
every block of the chain at index `i + 1` (that is, every block but genesis)
satisfies `isValidProofOfWork`; and for any block failing the predicate
`addBlock` returns false and the ledger (chain, counter, UTXO map) is as before. -/
theorem pow_invariant (cfg : Config) (L : Blockchain) (hL : Reachable cfg L) :
    (∀ (i : Nat) (b : Block), L.chain[i + 1]? = some b → isValidProofOfWork b = true) ∧
    (∀ b : Block, isValidProofOfWork b = false → L.addBlock b = some (false, L)) := by
  constructor
  · intro i b hb
    apply reachable_tail_pow cfg L hL
    cases hch : L.chain with
    | nil => rw [hch] at hb; simp at hb
    | cons x xs =>
      rw [hch] at hb
      simp only [List.getElem?_cons_succ] at hb
      exact List.getElem?_mem hb
  · intro b hpow
    cases htip : L.getLatestBlock with
    | none =>
      simp only [Blockchain.getLatestBlock, List.getLast?_eq_none_iff] at htip
      exact absurd htip (reachable_chain_ne_nil cfg L hL)
    | some tip => exact addBlock_pow_false L b tip htip hpow

/-- C12 on the two-block chain genesis, `emptyBlock`: the block at index 1 has
valid proof of work. -/
theorem pow_invariant_witness : isValidProofOfWork emptyBlock = true :=
  (pow_invariant {} (genesisLedger.afterAddBlock emptyBlock)
    (reachable_afterAddBlock {} genesisLedger emptyBlock (Reachable.init 1700000000))).1
    0 emptyBlock (by decide)

/-! ## C13: stale parent -/

/-- C13. For every ledger state with a tip and every block whose
`header.prevBlockHash` differs from `getBlockHash` of the tip, `addBlock`
returns false and the ledger (chain, counter, UTXO map) is as before. In
particular, of two blocks `b1`, `b2` built against the same tip, once `b1` is
appended `b2` is rejected, with the ledger as `b1` left it, whenever the id of
the new tip `b1` differs from the id of the old tip. -/
theorem addBlock_stale_parent (L : Blockchain) (tip : Block)
    (htip : L.getLatestBlock = some tip) :
    (∀ b : Block, b.header.prevBlockHash ≠ tip.getBlockHash →
      L.addBlock b = some (false, L)) ∧
    (∀ (b1 b2 : Block) (L1 : Blockchain),
      b1.header.prevBlockHash = tip.getBlockHash →
      b2.header.prevBlockHash = tip.getBlockHash →
      L.addBlock b1 = some (true, L1) →
      b1.getBlockHash ≠ tip.getBlockHash →
      L1.addBlock b2 = some (false, L1)) := by
  constructor
  · intro b hprev
    rw [addBlock_eq L b tip htip, if_pos hprev]
  · intro b1 b2 L1 _ h2 h1 hne
    rcases addBlock_chain _ _ _ _ h1 with ⟨hr, _⟩ | ⟨_, hc, _⟩
    · exact absurd hr (by decide)
    · have htip1 : L1.getLatestBlock = some b1 := by
        simp [Blockchain.getLatestBlock, hc]
      rw [addBlock_eq L1 b2 b1 htip1, if_pos (by rw [h2]; exact fun h => hne h.symm)]

/-- C13 on the genesis tip: `emptyBlock` and `spendBlock` are both built against
genesis; after `emptyBlock` is appended, `spendBlock` is rejected and the ledger
stays as `emptyBlock` left it. -/
theorem addBlock_stale_parent_witness :
    (genesisLedger.afterAddBlock emptyBlock).addBlock spendBlock =
      some (false, genesisLedger.afterAddBlock emptyBlock) :=
  (addBlock_stale_parent genesisLedger
    (createGenesisBlock 50 0x1f00ffff 1700000000 "Hello from Genesis!") rfl).2
    emptyBlock spendBlock (genesisLedger.afterAddBlock emptyBlock)
    (by decide) (by decide) (addBlock_of_result genesisLedger emptyBlock true (by decide))
    (by decide)

/-! ## C14: the transaction id -/

/-- The string `String.join` builds from a first piece and the rest. -/
theorem join_cons (piece : String) (rest : List String) :
    String.join (piece :: rest) = piece ++ String.join rest := by
  rw [String.join_eq, String.join_eq]
  apply String.ext
  simp

/-- Appending the pieces one by one to what is written: inputs. -/
theorem foldl_inputs_eq (inputs : List TxInput) (written : String) :
    inputs.foldl (fun written i => written ++ i.txid ++ Nat.repr i.index ++ i.signature) written
      = written ++ String.join (inputs.map TxInput.toString) := by
  induction inputs generalizing written with
  | nil => simp [String.join]
  | cons i rest ih =>
    rw [List.foldl_cons, ih, List.map_cons, join_cons]
    simp only [TxInput.toString, String.append_assoc]

/-- Appending the pieces one by one to what is written: outputs. -/
theorem foldl_outputs_eq (outputs : List TxOutput) (written : String) :
    outputs.foldl (fun written o => written ++ Nat.repr o.amount ++ o.pubKeyHash) written
      = written ++ String.join (outputs.map TxOutput.toString) := by
  induction outputs generalizing written with
  | nil => simp [String.join]
  | cons o rest ih =>
    rw [List.foldl_cons, ih, List.map_cons, join_cons]
    simp only [TxOutput.toString, String.append_assoc]

/-- C14. For every transaction, `getTxId` is `sha256` of the decimal version,
the decimal lock-time, each input's txid, decimal index and signature in order,
then each output's decimal amount and pubKeyHash in order, with no separator;
so the id is a function of these field values alone. For `spendTx` the hashed
string is `"10" ++ genesisTxId ++ "0sig" ++ "5000000000alice"`. -/
theorem getTxId_eq_spec (tx : Transaction) :
    tx.getTxId = sha256 (specTxSerialization tx.version tx.lockTime tx.inputs tx.outputs) ∧
    specTxSerialization spendTx.version spendTx.lockTime spendTx.inputs spendTx.outputs =
      "103fc2e7962ae4e13f44337e31bd1a08d54ae4ca9aab04c77a1803d2a07d6015f50sig5000000000alice" := by
  constructor
  · rw [Transaction.getTxId, Transaction.serialize, specTxSerialization, foldl_outputs_eq,
      foldl_inputs_eq]
  · decide

/-! ## C15: the block id -/

/-- C15. For every block, `getBlockHash` is `sha256` of the decimal version,
prevBlockHash, merkleRoot, decimal timestamp, decimal difficultyTarget and
decimal nonce in this order; two blocks with equal headers have the same block
id and the same proof-of-work verdict, whatever their transaction lists. -/
theorem getBlockHash_header_only (b c : Block) (hhdr : b.header = c.header) :
    b.getBlockHash = specBlockId b.header.version b.header.prevBlockHash b.header.merkleRoot
      b.header.timestamp b.header.difficultyTarget b.header.nonce ∧
    b.getBlockHash = c.getBlockHash ∧
    isValidProofOfWork b = isValidProofOfWork c := by
  have hid : b.getBlockHash = c.getBlockHash := by
    unfold Block.getBlockHash
    rw [hhdr]
  refine ⟨?_, hid, ?_⟩
  · unfold Block.getBlockHash specBlockId
    rfl
  · unfold isValidProofOfWork
    rw [hid]

/-- C15 at `emptyBlock` and `badRootBlock`: equal headers, different transaction lists. -/
theorem getBlockHash_header_only_witness :
    emptyBlock.transactions ≠ badRootBlock.transactions ∧
    emptyBlock.getBlockHash = badRootBlock.getBlockHash ∧
    isValidProofOfWork emptyBlock = isValidProofOfWork badRootBlock :=
  ⟨by decide, (getBlockHash_header_only emptyBlock badRootBlock rfl).2⟩

/-! ## C19: the Merkle root of no transaction -/

/-- C19. `calculateMerkleRoot` of the empty list is the string of exactly 64
characters `'0'`. -/
theorem calculateMerkleRoot_nil :
    calculateMerkleRoot [] =
      "0000000000000000000000000000000000000000000000000000000000000000" ∧
    (calculateMerkleRoot []).length = 64 ∧
    (calculateMerkleRoot []).data.all (fun ch => ch == '0') = true := by
  decide

/-! ## C16: the shape of genesis -/

/-- C16. Constructing the ledger with the default configuration on an empty
UTXO map, at any clock value, gives a chain of one block and a block counter of
1; the block has one transaction, with one input whose signature is
`"Hello from Genesis!"` and one output of 5000000000 to
`sha256("genesis-pubkey")`; the header has version 1, nonce 0 and the
transaction's id as Merkle root; and the UTXO map holds exactly one entry, under
the key `<that id>:0`, with that amount and commitment. -/
theorem genesis_shape (now : Nat) :
    ∃ (g : Block) (tx : Transaction) (i : TxInput),
      (Blockchain.new {} now UTXOSet.empty).chain = [g] ∧
      (Blockchain.new {} now UTXOSet.empty).g_totalBlocks = 1 ∧
      g.transactions = [tx] ∧
      tx.inputs = [i] ∧ i.signature = "Hello from Genesis!" ∧
      tx.outputs = [⟨5000000000, sha256 "genesis-pubkey"⟩] ∧
      g.header.version = 1 ∧ g.header.nonce = 0 ∧
      g.header.merkleRoot = tx.getTxId ∧
      ∀ key, (Blockchain.new {} now UTXOSet.empty).g_utxoSet key =
        if key = tx.getTxId ++ ":" ++ "0" then some ⟨5000000000, sha256 "genesis-pubkey"⟩
        else none := by
  refine ⟨_, _, _, rfl, rfl, rfl, rfl, rfl, rfl, rfl, rfl, ?_, ?_⟩
  · simp [createGenesisBlock, Block.buildMerkleRoot, calculateMerkleRoot, merkleLoop]
  · intro key
    rfl

/-! ## Configuration and counter along reachable ledgers -/

/-- What `addBlock` leaves alone, and what it does to the counter. -/
theorem addBlock_fields (L L2 : Blockchain) (b : Block) (r : Bool)
    (h : L.addBlock b = some (r, L2)) :
    L2.blockReward = L.blockReward ∧ L2.blockHalvingInterval = L.blockHalvingInterval ∧
    L2.difficultyTarget = L.difficultyTarget ∧
    L2.g_totalBlocks = (if r then (L.g_totalBlocks + 1) % 2 ^ 64 else L.g_totalBlocks) := by
  cases htip : L.getLatestBlock with
  | none => simp [Blockchain.addBlock, htip] at h
  | some tip =>
    rw [addBlock_eq L b tip htip] at h
    split_ifs at h <;>
      (simp only [Option.some.injEq, Prod.mk.injEq] at h
       obtain ⟨hr, hL2⟩ := h
       subst hr; subst hL2
       simp)

/-- A reachable ledger keeps the configured reward, interval and difficulty,
and its counter is the chain length as a 64-bit value. -/
theorem reachable_fields (cfg : Config) (L : Blockchain) (hL : Reachable cfg L) :
    L.blockReward = cfg.blockReward ∧ L.blockHalvingInterval = cfg.blockHalvingInterval ∧
    L.difficultyTarget = 520159231 ∧ L.g_totalBlocks = L.chain.length % 2 ^ 64 := by
  induction hL with
  | init now => exact ⟨rfl, rfl, rfl, rfl⟩
  | @step L0 b r L2 _ hstep ih =>
    obtain ⟨h1, h2, h3, h4⟩ := addBlock_fields _ _ _ _ hstep
    obtain ⟨i1, i2, i3, i4⟩ := ih
    refine ⟨h1.trans i1, h2.trans i2, h3.trans i3, ?_⟩
    rcases addBlock_chain _ _ _ _ hstep with ⟨hr, hc⟩ | ⟨hr, hc, _⟩
    · rw [h4, hr, hc]; simpa using i4
    · rw [h4, hr, hc, i4]
      simp [Nat.add_mod]

/-- The reward `getBlockReward` returns on a non-zero interval. -/
theorem getBlockReward_eq (L : Blockchain) (hI : 0 < L.blockHalvingInterval) :
    L.getBlockReward = some (specReward L.blockReward L.blockHalvingInterval L.g_totalBlocks) := by
  unfold Blockchain.getBlockReward specReward
  rw [if_neg (by omega)]
  by_cases h : L.g_totalBlocks / L.blockHalvingInterval < 64
  · simp only [ge_iff_le, if_pos h, if_neg (Nat.not_le.mpr h)]
  · simp only [ge_iff_le, if_neg h, if_pos (Nat.not_lt.mp h)]

/-- The block `createNewBlock` builds from the tip and the reward. -/
theorem createNewBlock_eq (L : Blockchain) (tip : Block) (reward now : Nat) (m : String)
    (htip : L.getLatestBlock = some tip) (hrew : L.getBlockReward = some reward) :
    L.createNewBlock now m =
      some { header := { version := 1, prevBlockHash := tip.getBlockHash, merkleRoot := "",
                         timestamp := now, difficultyTarget := L.difficultyTarget, nonce := 0 },
             transactions :=
               [{ version := 1, lockTime := 0,
                  inputs := [{ txid := "0", index := 0, signature := "coinbase" }],
                  outputs := [{ amount := (reward * 100000000) % 2 ^ 64,
                                pubKeyHash := m }] }] } := by
  simp only [Blockchain.createNewBlock, htip, hrew, Blockchain.getDifficultyTarget]

/-- A reachable ledger has a tip. -/
theorem reachable_tip (cfg : Config) (L : Blockchain) (hL : Reachable cfg L) :
    ∃ tip, L.getLatestBlock = some tip := by
  cases htip : L.getLatestBlock with
  | none =>
    simp only [Blockchain.getLatestBlock, List.getLast?_eq_none_iff] at htip
    exact absurd htip (reachable_chain_ne_nil cfg L hL)
  | some tip => exact ⟨tip, rfl⟩

/-! ## C17: the reward paid by a candidate -/

/-- C17, counterexample. With blockHalvingInterval 2 and blockReward 50, on the
freshly constructed ledger (chain length `n = 1`) the candidate pays
5000000000, while `reward(n + 1) * 10^8 = reward(2) * 10^8` is 2500000000. -/
theorem candidate_pays_current_reward :
    Reachable halvingConfig halvingGenesisLedger ∧
    halvingGenesisLedger.chain.length = 1 ∧
    (halvingGenesisLedger.createNewBlock 1700000600 "minerKey").map
      (fun c => c.transactions.map (fun tx => tx.outputs.map TxOutput.amount)) =
        some [[5000000000]] ∧
    specReward 50 2 (1 + 1) * 10 ^ 8 = 2500000000 ∧
    specReward 50 2 1 * 10 ^ 8 = 5000000000 :=
  ⟨Reachable.init 1700000000, by decide, by decide, by decide, by decide⟩

/-- C17, amended. For every reachable ledger state with a non-zero halving
interval, chain length `n` and every miner commitment `m`, `createNewBlock(m)`
returns a block with exactly one transaction, which has exactly one output,
paid to `m`, of amount `reward(n) * 10^8` as a 64-bit value: the reward is taken
at the current block count `g_totalBlocks = n`, not at `n + 1`. -/
theorem createNewBlock_reward (cfg : Config) (L : Blockchain) (hL : Reachable cfg L)
    (hI : 0 < cfg.blockHalvingInterval) (now : Nat) (m : String) :
    L.g_totalBlocks = L.chain.length % 2 ^ 64 ∧
    ∃ c tx, L.createNewBlock now m = some c ∧ c.transactions = [tx] ∧
      tx.outputs =
        [⟨(specReward cfg.blockReward cfg.blockHalvingInterval (L.chain.length % 2 ^ 64)
            * 100000000) % 2 ^ 64, m⟩] := by
  obtain ⟨h1, h2, _, h4⟩ := reachable_fields cfg L hL
  obtain ⟨tip, htip⟩ := reachable_tip cfg L hL
  have hrew := getBlockReward_eq L (by rw [h2]; exact hI)
  rw [h1, h2, h4] at hrew
  exact ⟨h4, _, _, createNewBlock_eq L tip _ now m htip hrew, rfl, rfl⟩

/-- C17 amended, at the ledger built from `halvingConfig`. -/
theorem createNewBlock_reward_witness :
    halvingGenesisLedger.g_totalBlocks = halvingGenesisLedger.chain.length % 2 ^ 64 ∧
    ∃ c tx, halvingGenesisLedger.createNewBlock 1700000600 "minerKey" = some c ∧
      c.transactions = [tx] ∧
      tx.outputs =
        [⟨(specReward halvingConfig.blockReward halvingConfig.blockHalvingInterval
            (halvingGenesisLedger.chain.length % 2 ^ 64) * 100000000) % 2 ^ 64, "minerKey"⟩] :=
  createNewBlock_reward halvingConfig halvingGenesisLedger (Reachable.init 1700000000)
    (by decide) 1700000600 "minerKey"

/-! ## C18: the form of the coinbase -/

/-- C18, counterexample. In the genesis block of the default ledger and in the
candidate `createNewBlock` returns on it, the only input of transaction 0 has
the one-character txid `"0"`, which is not the all-zero digest of 64
characters. -/
theorem coinbase_txid_not_null_digest :
    zeroDigest.length = 64 ∧
    genesisLedger.chain.map (fun b => b.transactions.map (fun tx =>
      tx.inputs.map (fun i => (i.txid, decide (i.txid = zeroDigest))))) =
        [[[("0", false)]]] ∧
    (genesisLedger.createNewBlock 1700000600 "minerKey").map (fun c =>
      c.transactions.map (fun tx =>
        tx.inputs.map (fun i => (i.txid, decide (i.txid = zeroDigest))))) =
        some [[("0", false)]] := by
  decide

/-- C18, amended. In the genesis block built by `createGenesisBlock` and in
every block `createNewBlock` returns on a reachable ledger with a non-zero
halving interval, transaction 0 has exactly one input, whose txid is the
one-character string `"0"` and whose index is 0; the genesis header's
`prevBlockHash` is the all-zero digest of 64 characters `'0'`. -/
theorem coinbase_form (cfg : Config) (L : Blockchain) (hL : Reachable cfg L)
    (hI : 0 < cfg.blockHalvingInterval) (now : Nat) (m : String) :
    (∀ (blockReward difficultyTarget t : Nat) (msg : String),
      (createGenesisBlock blockReward difficultyTarget t msg).transactions.map
          Transaction.inputs = [[⟨"0", 0, msg⟩]] ∧
      (createGenesisBlock blockReward difficultyTarget t msg).header.prevBlockHash
          = zeroDigest) ∧
    (∃ c, L.createNewBlock now m = some c ∧
      c.transactions.map Transaction.inputs = [[⟨"0", 0, "coinbase"⟩]]) ∧
    zeroDigest = "0000000000000000000000000000000000000000000000000000000000000000" := by
  refine ⟨fun _ _ _ _ => ⟨rfl, rfl⟩, ?_, by decide⟩
  obtain ⟨_, h2, _, _⟩ := reachable_fields cfg L hL
  obtain ⟨tip, htip⟩ := reachable_tip cfg L hL
  have hrew := getBlockReward_eq L (by rw [h2]; exact hI)
  exact ⟨_, createNewBlock_eq L tip _ now m htip hrew, rfl⟩

/-- C18 amended, at the default genesis ledger. -/
theorem coinbase_form_witness :
    ∃ c, genesisLedger.createNewBlock 1700000600 "minerKey" = some c ∧
      c.transactions.map Transaction.inputs = [[⟨"0", 0, "coinbase"⟩]] :=
  (coinbase_form {} genesisLedger (Reachable.init 1700000000) (by decide)
    1700000600 "minerKey").2.1

/-! ## C20: the candidate's header, and what the call leaves alone -/

/-- C20, counterexample. With blockHalvingInterval 0 the freshly constructed
ledger is reachable, and `createNewBlock` returns no block: `getBlockReward`
divides the block count by the interval. -/
theorem createNewBlock_zero_interval :
    Reachable zeroIntervalConfig zeroIntervalLedger ∧
    zeroIntervalLedger.getBlockReward = none ∧
    zeroIntervalLedger.createNewBlock 1700000600 "minerKey" = none :=
  ⟨Reachable.init 1700000000, by decide, by decide⟩

/-- C20, amended. For every reachable ledger state with a non-zero halving
interval and every miner commitment, `createNewBlock` returns a block with
`header.version = 1`, `header.prevBlockHash = getBlockHash(tip)`, the clock value
as timestamp, `header.difficultyTarget` the ledger's difficulty (the constant
0x1f00ffff), `header.nonce = 0` and exactly one transaction; the chain, the
block counter and the UTXO map after the call are those before it. -/
theorem createNewBlock_header (cfg : Config) (L : Blockchain) (hL : Reachable cfg L)
    (hI : 0 < cfg.blockHalvingInterval) (now : Nat) (m : String) :
    (∃ tip c, L.getLatestBlock = some tip ∧ L.createNewBlock now m = some c ∧
      c.header.version = 1 ∧ c.header.prevBlockHash = tip.getBlockHash ∧
      c.header.timestamp = now ∧ c.header.difficultyTarget = L.getDifficultyTarget ∧
      c.header.nonce = 0 ∧ c.transactions.length = 1) ∧
    L.getDifficultyTarget = 520159231 ∧
    (L.afterCreateNewBlock now m).chain = L.chain ∧
    (L.afterCreateNewBlock now m).g_totalBlocks = L.g_totalBlocks ∧
    (L.afterCreateNewBlock now m).g_utxoSet = L.g_utxoSet := by
  obtain ⟨_, h2, h3, _⟩ := reachable_fields cfg L hL
  obtain ⟨tip, htip⟩ := reachable_tip cfg L hL
  have hrew := getBlockReward_eq L (by rw [h2]; exact hI)
  exact ⟨⟨tip, _, htip, createNewBlock_eq L tip _ now m htip hrew, rfl, rfl, rfl, rfl, rfl, rfl⟩,
    h3, rfl, rfl, rfl⟩

/-- C20 amended, at the default genesis ledger. -/
theorem createNewBlock_header_witness :
    (genesisLedger.afterCreateNewBlock 1700000600 "minerKey").chain = genesisLedger.chain :=
  (createNewBlock_header {} genesisLedger (Reachable.init 1700000000) (by decide)
    1700000600 "minerKey").2.2.1

/-! ## C22: the serialization is ambiguous -/

/-- C22. For every list of inputs and of outputs, the transaction with version 1
and lock-time 23 and the transaction with version 12 and lock-time 3 differ as
field values, yet `getTxId` feeds the very same string (it starts `"123"`) to
`sha256` for both, so their ids are equal whatever the hash function is. -/
theorem serialization_ambiguous (inputs : List TxInput) (outputs : List TxOutput) :
    txOneTwentyThree inputs outputs ≠ txTwelveThree inputs outputs ∧
    (txOneTwentyThree inputs outputs).serialize = (txTwelveThree inputs outputs).serialize ∧
    (txOneTwentyThree inputs outputs).getTxId = (txTwelveThree inputs outputs).getTxId ∧
    (txOneTwentyThree [] []).serialize = "123" := by
  have hser : (txOneTwentyThree inputs outputs).serialize =
      (txTwelveThree inputs outputs).serialize := by
    have hhead : Nat.repr 1 ++ Nat.repr 23 = Nat.repr 12 ++ Nat.repr 3 := by decide
    simp only [Transaction.serialize, txOneTwentyThree, txTwelveThree, hhead]
  refine ⟨?_, hser, ?_, by decide⟩
  · intro h
    have hv := congrArg Transaction.version h
    simp [txOneTwentyThree, txTwelveThree] at hv
  · rw [Transaction.getTxId, Transaction.getTxId, hser]

/-! ## C23: duplication at odd counts -/

/-- For a non-empty list the root is the specified one. -/
theorem calculateMerkleRoot_of_ne_nil (xs : List String) (hxs : xs ≠ []) :
    calculateMerkleRoot xs = merkleSpec xs := by
  have hemp : xs.isEmpty = false := by
    cases xs with
    | nil => exact absurd rfl hxs
    | cons _ _ => rfl
  rw [calculateMerkleRoot, hemp, merkleLoop_eq_spec xs.length xs hxs (by omega)]
  simp

/-- C23. For every list of leaf strings of odd length at least 3, with last
element `last`, `calculateMerkleRoot(xs) = calculateMerkleRoot(xs ++ [last])`.
At length 1 the two sides are `a` and `sha256(a ++ a)`, which differ for
instance at the genesis transaction id. -/
theorem merkle_odd_duplication (xs : List String) (last : String)
    (hodd : xs.length % 2 = 1) (h3 : 3 ≤ xs.length) (hlast : xs.getLast? = some last) :
    calculateMerkleRoot xs = calculateMerkleRoot (xs ++ [last]) ∧
    (∀ a, calculateMerkleRoot [a] = a ∧ calculateMerkleRoot [a, a] = sha256 (a ++ a)) ∧
    calculateMerkleRoot [genesisTxId] ≠ calculateMerkleRoot [genesisTxId, genesisTxId] := by
  refine ⟨?_, ?_, by decide⟩
  · match xs, h3 with
    | a :: b :: rest, _ =>
      have hD : (a :: b :: rest).getLastD "" = last := by
        rw [List.getLastD_eq_getLast?, hlast]; rfl
      have hpad1 : specPad (a :: b :: rest) = a :: b :: rest ++ [last] := by
        rw [specPad, if_pos hodd, hD]
      have hlen2 : (a :: b :: (rest ++ [last])).length % 2 ≠ 1 := by
        simp only [List.length_cons, List.length_append, List.length_nil] at hodd ⊢
        omega
      have hpad2 : specPad (a :: b :: (rest ++ [last])) = a :: b :: (rest ++ [last]) := by
        rw [specPad, if_neg hlen2]
      rw [calculateMerkleRoot_of_ne_nil _ (by simp),
        calculateMerkleRoot_of_ne_nil _ (by simp)]
      show merkleSpec (a :: b :: rest) = merkleSpec (a :: b :: (rest ++ [last]))
      rw [merkleSpec, merkleSpec, hpad1, hpad2]
      rfl
  · intro a
    constructor
    · simp [calculateMerkleRoot, merkleLoop]
    · simp [calculateMerkleRoot, merkleLoop, hashPairs]

/-- C23 at the three leaves `["a", "b", "c"]`. -/
theorem merkle_odd_duplication_witness :
    calculateMerkleRoot ["a", "b", "c"] = calculateMerkleRoot (["a", "b", "c"] ++ ["c"]) :=
  (merkle_odd_duplication ["a", "b", "c"] "c" (by decide) (by decide) (by decide)).1

/-! ## Decimal rendering is injective -/

/-- A decimal digit character reads back as its digit. -/
theorem digitChar_value (d : Nat) (hd : d < 10) : (Nat.digitChar d).toNat - 48 = d := by
  interval_cases d <;> rfl

/-- Reading back what `toDigitsCore` wrote in front of `ds`. -/
theorem readDecimal_toDigitsCore : ∀ (fuel n : Nat) (ds : List Char), n < fuel →
    (Nat.toDigitsCore 10 fuel n ds).foldl (fun acc ch => acc * 10 + (ch.toNat - 48)) 0 =
      ds.foldl (fun acc ch => acc * 10 + (ch.toNat - 48)) n
  | 0, _, _, h => absurd h (Nat.not_lt_zero _)
  | fuel + 1, n, ds, h => by
    rw [Nat.toDigitsCore]
    by_cases h0 : n / 10 = 0
    · rw [if_pos h0, List.foldl_cons, digitChar_value _ (Nat.mod_lt _ (by decide))]
      have : n % 10 = n := Nat.mod_eq_of_lt (by omega)
      rw [this, Nat.zero_mul, Nat.zero_add]
    · rw [if_neg h0, readDecimal_toDigitsCore fuel (n / 10) _ (by omega), List.foldl_cons,
        digitChar_value _ (Nat.mod_lt _ (by decide))]
      have : n / 10 * 10 + n % 10 = n := by omega
      rw [this]

/-- The decimal rendering reads back as the number. -/
theorem readDecimal_repr (n : Nat) : readDecimal (Nat.repr n).data = n := by
  unfold readDecimal Nat.repr Nat.toDigits
  rw [List.asString]
  exact readDecimal_toDigitsCore (n + 1) n [] (by omega)

/-- Two numbers with the same decimal rendering are equal. -/
theorem repr_injective (i j : Nat) (h : Nat.repr i = Nat.repr j) : i = j := by
  have := congrArg (fun s => readDecimal s.data) h
  simpa only [readDecimal_repr] using this

/-- Keys under one transaction id differ when the indices differ. -/
theorem utxoKey_injective (txid : String) (i j : Nat) (h : utxoKey txid i = utxoKey txid j) :
    i = j := by
  apply repr_injective
  unfold utxoKey at h
  have hd := congrArg String.data h
  simp only [String.data_append, List.append_assoc] at hd
  have := List.append_cancel_left (List.append_cancel_left hd)
  exact String.ext this

/-! ## C24: what `applyTransaction` does to the map -/

/-- A key that is no output key keeps its entry through the insertion loop. -/
theorem insertOutputs_other (txid : String) : ∀ (outs : List TxOutput) (start : Nat)
    (u : UTXOSet) (key : String),
    (∀ j, j < outs.length → key ≠ utxoKey txid (start + j)) →
    insertOutputs txid start outs u key = u key
  | [], _, _, _, _ => rfl
  | out :: rest, start, u, key, h => by
    rw [insertOutputs, insertOutputs_other txid rest (start + 1) _ key]
    · have h0 := h 0 (by simp)
      simp only [Nat.add_zero] at h0
      simp [UTXOSet.assign, h0]
    · intro j hj
      have := h (j + 1) (by simp; omega)
      rwa [show start + (j + 1) = start + 1 + j by omega] at this

/-- The output at position `j` ends up under the key of index `start + j`. -/
theorem insertOutputs_at (txid : String) : ∀ (outs : List TxOutput) (start : Nat)
    (u : UTXOSet) (j : Nat) (o : TxOutput), outs[j]? = some o →
    insertOutputs txid start outs u (utxoKey txid (start + j)) = some ⟨o.amount, o.pubKeyHash⟩
  | [], _, _, _, _, h => by simp at h
  | out :: rest, start, u, 0, o, h => by
    simp only [List.getElem?_cons_zero, Option.some.injEq] at h
    rw [insertOutputs, insertOutputs_other txid rest (start + 1) _ _]
    · simp [UTXOSet.assign, h]
    · intro j _ hkey
      have := utxoKey_injective txid _ _ hkey
      omega
  | out :: rest, start, u, j + 1, o, h => by
    simp only [List.getElem?_cons_succ] at h
    rw [insertOutputs, show start + (j + 1) = start + 1 + j by omega]
    exact insertOutputs_at txid rest (start + 1) _ j o h

/-- An absent key stays absent through the erasing loop. -/
theorem eraseInputs_none : ∀ (ins : List TxInput) (u : UTXOSet) (key : String),
    u key = none → eraseInputs ins u key = none
  | [], _, _, h => h
  | i :: rest, u, key, h => by
    rw [eraseInputs]
    apply eraseInputs_none rest
    simp only [UTXOSet.erase, h, ite_self]

/-- An input key is absent after the erasing loop. -/
theorem eraseInputs_mem : ∀ (ins : List TxInput) (u : UTXOSet) (inp : TxInput),
    inp ∈ ins → eraseInputs ins u (utxoKey inp.txid inp.index) = none
  | [], _, _, h => by simp at h
  | i :: rest, u, inp, h => by
    rw [eraseInputs]
    by_cases hk : utxoKey inp.txid inp.index = utxoKey i.txid i.index
    · apply eraseInputs_none
      simp [UTXOSet.erase, hk]
    · rcases List.mem_cons.mp h with h1 | h1
      · exact absurd (by rw [h1]) hk
      · exact eraseInputs_mem rest _ inp h1

/-- A key that is no input key keeps its entry through the erasing loop. -/
theorem eraseInputs_other : ∀ (ins : List TxInput) (u : UTXOSet) (key : String),
    (∀ inp ∈ ins, key ≠ utxoKey inp.txid inp.index) → eraseInputs ins u key = u key
  | [], _, _, _ => rfl
  | i :: rest, u, key, h => by
    rw [eraseInputs, eraseInputs_other rest _ key (fun inp hin => h inp (List.mem_cons_of_mem _ hin))]
    simp [UTXOSet.erase, h i (List.mem_cons_self _ _)]

/-- C24. For every UTXO map `U` and transaction `tx` with id `t`, after
`applyTransaction(tx)`: every key `t:i` with `i < |tx.outputs|` maps to the
amount and pubKeyHash of output `i`; every input key of `tx` that is not one of
those output keys is absent; and every key that is neither an output key nor an
input key has exactly the entry, or the absence, it had in `U`. -/
theorem applyTransaction_postcondition (u : UTXOSet) (tx : Transaction) :
    (∀ (i : Nat) (o : TxOutput), tx.outputs[i]? = some o →
      applyTransaction u tx (utxoKey tx.getTxId i) = some ⟨o.amount, o.pubKeyHash⟩) ∧
    (∀ inp ∈ tx.inputs,
      (∀ i, i < tx.outputs.length → utxoKey inp.txid inp.index ≠ utxoKey tx.getTxId i) →
      applyTransaction u tx (utxoKey inp.txid inp.index) = none) ∧
    (∀ key : String,
      (∀ i, i < tx.outputs.length → key ≠ utxoKey tx.getTxId i) →
      (∀ inp ∈ tx.inputs, key ≠ utxoKey inp.txid inp.index) →
      applyTransaction u tx key = u key) := by
  refine ⟨?_, ?_, ?_⟩
  · intro i o ho
    have := insertOutputs_at tx.getTxId tx.outputs 0 (eraseInputs tx.inputs u) i o ho
    rwa [Nat.zero_add] at this
  · intro inp hin hout
    rw [applyTransaction, insertOutputs_other _ _ _ _ _ (by simpa using hout)]
    exact eraseInputs_mem _ _ _ hin
  · intro key hout hin
    rw [applyTransaction, insertOutputs_other _ _ _ _ _ (by simpa using hout)]
    exact eraseInputs_other _ _ _ hin

/-- C24 at the genesis map and `spendTx`: the genesis output, its only input,
is gone, and an unrelated key is as absent as before. -/
theorem applyTransaction_postcondition_witness :
    applyTransaction genesisLedger.g_utxoSet spendTx (utxoKey genesisTxId 0) = none :=
  (applyTransaction_postcondition genesisLedger.g_utxoSet spendTx).2.1
    ⟨genesisTxId, 0, "sig"⟩ (by decide) (by decide)

/-! ## C25: `validateTransaction` only reads -/

/-- The input loop with the map threaded through computes the sum of
`sumInputs` and hands the map back as it got it: `operator[]` is reached only
after `find` succeeded. -/
theorem sumInputsCall_eq : ∀ (ins : List TxInput) (u : UTXOSet) (inputSum : Nat),
    sumInputsCall u ins inputSum = (sumInputs u ins inputSum, u)
  | [], _, _ => rfl
  | i :: rest, u, inputSum => by
    rw [sumInputsCall, sumInputs]
    cases hk : u (utxoKey i.txid i.index) with
    | none => rfl
    | some entry =>
      simp only [UTXOSet.index, hk]
      exact sumInputsCall_eq rest u _

/-- C25. For every ledger state and every transaction, whether
`validateTransaction` returns true or false, the ledger after the call is the
ledger before it: the UTXO map has the same keys and values (the map's
`operator[]`, which would insert a default entry for a missing key, is reached
only for keys `find` has found) and the chain is untouched. The flag is the one
computed by `validateTransaction` on the map. -/
theorem validateTransaction_read_only (L : Blockchain) (tx : Transaction) :
    L.validateTransactionCall tx = (validateTransaction L.g_utxoSet tx, L) ∧
    (∀ key, (L.validateTransactionCall tx).2.g_utxoSet key = L.g_utxoSet key) ∧
    (L.validateTransactionCall tx).2.chain = L.chain := by
  have h : L.validateTransactionCall tx = (validateTransaction L.g_utxoSet tx, L) := by
    unfold Blockchain.validateTransactionCall validateTransaction
    simp only [sumInputsCall_eq]
    cases sumInputs L.g_utxoSet tx.inputs 0 with
    | none => rfl
    | some inputSum =>
      simp only []
      split_ifs <;> rfl
  refine ⟨h, ?_, ?_⟩
  · intro key; rw [h]
  · rw [h]

/-! ## C26: the chain only grows -/

/-- The states reached with `createNewBlock` calls in between are the states
reached by `addBlock` calls alone. -/
theorem reachable_of_calls (cfg : Config) (L : Blockchain) (hL : ReachableByCalls cfg L) :
    Reachable cfg L := by
  induction hL with
  | init now => exact Reachable.init now
  | addBlock b r L2 _ hstep ih => exact Reachable.step b r L2 ih hstep
  | createNewBlock now m _ ih => exact ih

/-- C26. In every ledger state reached from construction by any sequence of
`addBlock` and `createNewBlock` calls: the chain is non-empty, so
`getLatestBlock` has a block to return; the counter `g_totalBlocks` is the chain
length (as a 64-bit value, hence the length itself for any length a vector can
have); an `addBlock(b)` that returns true leaves the chain as the old chain
followed by `b`; and after any `addBlock` or `createNewBlock` call the old
chain is a prefix of the new one, so no block is removed or reordered. -/
theorem chain_length_invariant (cfg : Config) (L : Blockchain)
    (hL : ReachableByCalls cfg L) :
    L.chain ≠ [] ∧
    (∃ tip, L.getLatestBlock = some tip) ∧
    L.g_totalBlocks = L.chain.length % 2 ^ 64 ∧
    (L.chain.length < 2 ^ 64 → L.g_totalBlocks = L.chain.length) ∧
    (∀ (b : Block) (L2 : Blockchain), L.addBlock b = some (true, L2) →
      L2.chain = L.chain ++ [b]) ∧
    (∀ (b : Block) (r : Bool) (L2 : Blockchain), L.addBlock b = some (r, L2) →
      L.chain <+: L2.chain) ∧
    (∀ (now : Nat) (m : String), L.chain <+: (L.afterCreateNewBlock now m).chain) := by
  have hR := reachable_of_calls cfg L hL
  obtain ⟨_, _, _, hcount⟩ := reachable_fields cfg L hR
  refine ⟨reachable_chain_ne_nil cfg L hR, reachable_tip cfg L hR, hcount, ?_, ?_, ?_, ?_⟩
  · intro hlt
    rw [hcount, Nat.mod_eq_of_lt hlt]
  · intro b L2 h
    rcases addBlock_chain _ _ _ _ h with ⟨hr, _⟩ | ⟨_, hc, _⟩
    · exact absurd hr (by decide)
    · exact hc
  · intro b r L2 h
    rcases addBlock_chain _ _ _ _ h with ⟨_, hc⟩ | ⟨_, hc, _⟩
    · rw [hc]
    · rw [hc]; exact List.prefix_append _ _
  · intro now m
    exact List.prefix_refl _

/-- C26 on the ledger reached by `addBlock(emptyBlock)`, a `createNewBlock`
call and `addBlock(spendBlock)` (rejected: stale parent): two blocks, counter 2. -/
theorem chain_length_invariant_witness :
    (((genesisLedger.afterAddBlock emptyBlock).afterCreateNewBlock 1700000700
      "minerKey").afterAddBlock spendBlock).g_totalBlocks = 2 :=
  (chain_length_invariant {}
    (((genesisLedger.afterAddBlock emptyBlock).afterCreateNewBlock 1700000700
      "minerKey").afterAddBlock spendBlock)
    (ReachableByCalls.addBlock spendBlock false _
      (ReachableByCalls.createNewBlock 1700000700 "minerKey"
        (ReachableByCalls.addBlock emptyBlock true _ (ReachableByCalls.init 1700000000)
          (addBlock_of_result genesisLedger emptyBlock true (by decide))))
      (addBlock_of_result _ spendBlock false (by decide)))).2.2.2.1 (by decide)

/-! ## C21: the mutex covers the push only -/

/-- One thread alone, run through its three stretches, is `addBlock`. -/
theorem runAlone_eq_addBlock (L : Blockchain) (b : Block) :
    runAlone b 3 L AddBlockStage.checks = L.addBlock b := by
  unfold Blockchain.addBlock
  cases htip : L.getLatestBlock with
  | none => simp [runAlone, addBlockStretch, htip]
  | some tip =>
    simp only [runAlone, addBlockStretch, htip]
    split_ifs <;> simp_all [runAlone, addBlockStretch]

/-- C21, the code at the failing input. Two threads call `addBlock(emptyBlock)`
and `addBlock(spendBlock)` on the genesis ledger; both blocks name genesis as
parent. Run one after the other, the second call returns false. With the
schedule checks, checks, transactions, transactions, push, push (the two
locked stretches do not overlap) both calls return true and the chain holds
both blocks, the second not linked to the first. After the second thread's
unlocked transaction pass and before its push, the UTXO map already holds its
output while the chain does not hold its block. -/
theorem concurrent_addBlock_both_accepted :
    emptyBlock.header.prevBlockHash = spendBlock.header.prevBlockHash ∧
    (genesisLedger.afterAddBlock emptyBlock).addBlockResult spendBlock = some false ∧
    (runSchedule emptyBlock spendBlock [true, false, true, false, true, false]
        ⟨genesisLedger, .checks, .checks⟩).map
      (fun s => (s.first, s.second, s.ledger.chain)) =
        some (.returned true, .returned true, genesisLedger.chain ++ [emptyBlock, spendBlock]) ∧
    spendBlock.header.prevBlockHash ≠ emptyBlock.getBlockHash ∧
    (runSchedule emptyBlock spendBlock [false, false] ⟨genesisLedger, .checks, .checks⟩).map
      (fun s => (s.second, s.ledger.chain, s.ledger.g_utxoSet (utxoKey genesisTxId 0),
        s.ledger.g_utxoSet (utxoKey spendTx.getTxId 0))) =
        some (.commit, genesisLedger.chain, none, some ⟨5000000000, "alice"⟩) := by
  decide

end Matchain
